import Mathlib

/-!
Verification development for the notes-sync-linux repository.

This file gives a shallow embedding of the reconciliation and
provider-resolution core (`src/notes_sync_linux/core.py`) and proves the
frozen claims about it.  File contents are modelled as lists of byte
values; the SHA-256 digest is an abstract parameter `h : Content → String`
(the code only ever compares digests for equality).  The filesystem is an
idealized state: a finite map from paths (lists of segments) to contents,
together with the set of existing directories.  Error conditions of the
real filesystem (hashing a directory, mkdir over a file, ...) are outside
the model; the theorems below are therefore stated with the well-formedness
hypotheses under which the Python code runs without raising.
-/

namespace NotesSync

/-- Bytes of a file, modelled as a list of byte values. -/
abbrev Content := List Nat

/-- A filesystem path, as a list of path segments (relative to the
storage base directory). -/
abbrev FPath := List String

/-- Idealized filesystem state: an association list from paths to file
contents plus the set of existing directories. -/
structure FS where
  files : List (FPath × Content)
  dirs : List FPath
deriving DecidableEq

/-- Look up the contents of the file at `p` (mirrors reading / hashing an
existing file on disk). -/
def fsRead (fs : FS) (p : FPath) : Option Content :=
  (fs.files.find? (fun e => decide (e.1 = p))).map (fun e => e.2)

/-- Mirrors `Path.exists()` for a file path. -/
def fsExists (fs : FS) (p : FPath) : Bool :=
  (fsRead fs p).isSome

/-- Mirrors `Path.unlink(missing_ok=True)`. -/
def fsUnlink (fs : FS) (p : FPath) : FS :=
  { fs with files := fs.files.filter (fun e => decide (e.1 ≠ p)) }

/-- All nonempty prefixes of a path, shortest first. -/
def pathPrefixes (p : FPath) : List FPath :=
  (List.range p.length).map (fun i => p.take (i + 1))

/-- Mirrors `Path.mkdir(parents=True, exist_ok=True)`: create the
directory and all its ancestors. -/
def mkdirParents (fs : FS) (p : FPath) : FS :=
  { fs with dirs := fs.dirs ++ (pathPrefixes p).filter (fun d => decide (d ∉ fs.dirs)) }

/-- Mirrors `shutil.rmtree(p)`: remove every file and directory at or
below `p`. -/
def rmtreeUnder (fs : FS) (p : FPath) : FS :=
  { files := fs.files.filter (fun e => decide (¬ p <+: e.1)),
    dirs := fs.dirs.filter (fun d => decide (¬ p <+: d)) }

/-- Mirrors `SyncEngine._replace_file`: create the destination's parent
directories, remove any existing destination, and move the staged bytes
into place. -/
def replaceFile (fs : FS) (dest : FPath) (c : Content) : FS :=
  let fs1 := mkdirParents fs dest.dropLast
  { fs1 with files := (dest, c) :: fs1.files.filter (fun e => decide (e.1 ≠ dest)) }

/-- Mirrors `Path.rmdir()` on an empty directory. -/
def removeDir (fs : FS) (d : FPath) : FS :=
  { fs with dirs := fs.dirs.filter (fun x => decide (x ≠ d)) }

/-- Whether directory `d` has an immediate child (file or directory):
mirrors `next(directory.iterdir())` succeeding. -/
def hasChild (fs : FS) (d : FPath) : Bool :=
  fs.files.any (fun e => decide (e.1 ≠ [] ∧ e.1.dropLast = d)) ||
    fs.dirs.any (fun x => decide (x ≠ [] ∧ x.dropLast = d))

/-- One file inside a folder-mode target (`SyncedFileItem` in core.py). -/
structure SyncedFileItem where
  relative_path : String
  local_relative_path : String
  sha256 : String
  modified_at : Option String
  size_bytes : Option Int
  mime_type : Option String
deriving DecidableEq

/-- A sync target (`NoteItem` in core.py), restricted to the fields the
sync engine reads or writes. -/
structure NoteItem where
  id : String
  file_name : String
  sha256 : Option String
  last_checked_at : Option String
  last_updated_at : Option String
  status : String
  last_error : Option String
  source_type : Option String
  folder_files : List SyncedFileItem
deriving DecidableEq

/-- One fetch result for a folder entry (`DownloadedFolderFile` in
core.py); `temp` holds the staged bytes when the download succeeded. -/
structure DownloadedFolderFile where
  remote_path : String
  local_relative_path : String
  temp : Option Content
  modified_at : Option String
  size_bytes : Option Int
  mime_type : Option String
  was_skipped : Bool
  download_error : Option String
deriving DecidableEq

/-- Per-run options (`DownloadOptions` in core.py). -/
structure DownloadOptions where
  skip_video_files : Bool
  skip_large_files : Bool
  max_file_size_bytes : Int
deriving DecidableEq

/-- Character-level model of Python `str.split(sep)` for a one-character
separator (executable, unlike `String.splitOn`): `""` splits to `[""]`,
and separators at the ends produce empty segments, as in Python. -/
def splitChar (sep : Char) : List Char → List (List Char)
  | [] => [[]]
  | c :: rest =>
    match splitChar sep rest with
    | [] => [[]]
    | cur :: parts => if c = sep then [] :: cur :: parts else (c :: cur) :: parts

/-- Python `s.split(sep)` on strings, via `splitChar`. -/
def pySplit (sep : Char) (s : String) : List String :=
  (splitChar sep s.toList).map String.mk

/-- Mirrors `Path("x") / rel` splitting a relative path on slashes
(pathlib drops empty segments produced by duplicate slashes). -/
def splitPath (s : String) : FPath :=
  (pySplit '/' s).filter (fun seg => decide (seg ≠ ""))

/-- Mirrors `StorageManager.source_dir`. -/
def sourceDir (note : NoteItem) : FPath :=
  ["sources", note.id]

/-- Mirrors `StorageManager.source_file_path`. -/
def sourceFilePath (note : NoteItem) (lrp : String) : FPath :=
  sourceDir note ++ splitPath lrp

/-- Mirrors `StorageManager.single_file_path`. -/
def singleFilePath (note : NoteItem) : FPath :=
  ["pdfs", note.file_name]

/-- Pythonic truthiness of an optional string (`None` and `""` are falsy). -/
def pyTruthy (o : Option String) : Bool :=
  decide (o.getD "" ≠ "")

/-- Mirrors the dict `{x.local_relative_path: x for x in previous_items}`
followed by `.get(key)`: the last item with the given key wins. -/
def dictGet (items : List SyncedFileItem) (key : String) : Option SyncedFileItem :=
  items.foldl (fun acc x => if x.local_relative_path = key then some x else acc) none

/-- The `SyncedFileItem` built for one folder entry (core.py lines 976-985). -/
def mkItem (f : DownloadedFolderFile) (sha : String) : SyncedFileItem :=
  { relative_path := f.remote_path
    local_relative_path := f.local_relative_path
    sha256 := sha
    modified_at := f.modified_at
    size_bytes := f.size_bytes
    mime_type := f.mime_type }

/-- Result of processing one folder entry inside the reconciliation loop:
the new filesystem, the deltas to the changed / skipped / failed counters,
and the `SyncedFileItem` appended to `next_items` (core.py lines 950-985). -/
def folderFileStep (h : Content → String) (note : NoteItem)
    (previous : List SyncedFileItem) (fs : FS) (f : DownloadedFolderFile) :
    FS × Nat × Nat × Nat × SyncedFileItem :=
  let dest := sourceFilePath note f.local_relative_path
  let fs1 := mkdirParents fs dest.dropLast
  match f.temp with
  | some c =>
    let newHash := h c
    let hasChanges :=
      match fsRead fs1 dest with
      | some b => decide (h b ≠ newHash)
      | none => true
    if hasChanges then
      (replaceFile fs1 dest c, 1, 0, 0, mkItem f newHash)
    else
      (fs1, 0, 0, 0, mkItem f newHash)
  | none =>
    let sk := if f.was_skipped then 1 else 0
    let fl := if f.was_skipped then 0 else if pyTruthy f.download_error then 1 else 0
    let newHash :=
      match fsRead fs1 dest with
      | some b => h b
      | none =>
        match dictGet previous f.local_relative_path with
        | some it => it.sha256
        | none => ""
    (fs1, 0, sk, fl, mkItem f newHash)

/-- The `for file in downloaded_files` loop of `_apply_folder_sync`,
returning the final filesystem, the changed / skipped / failed counters
and `next_items` in processing order. -/
def folderLoop (h : Content → String) (note : NoteItem)
    (previous : List SyncedFileItem) :
    FS → List DownloadedFolderFile → FS × Nat × Nat × Nat × List SyncedFileItem
  | fs, [] => (fs, 0, 0, 0, [])
  | fs, f :: rest =>
    let s := folderFileStep h note previous fs f
    let r := folderLoop h note previous s.1 rest
    (r.1, s.2.1 + r.2.1, s.2.2.1 + r.2.2.1, s.2.2.2.1 + r.2.2.2.1,
      s.2.2.2.2 :: r.2.2.2.2)

/-- The removal pass of `_apply_folder_sync` (core.py lines 988-994):
delete every previously-recorded file whose path is absent from the new
set, counting each deletion. -/
def removalLoop (note : NoteItem) (nextPaths : List String) :
    FS → List SyncedFileItem → FS × Nat
  | fs, [] => (fs, 0)
  | fs, old :: rest =>
    if old.local_relative_path ∈ nextPaths then
      removalLoop note nextPaths fs rest
    else
      let oldFile := sourceFilePath note old.local_relative_path
      if fsExists fs oldFile then
        let r := removalLoop note nextPaths (fsUnlink fs oldFile) rest
        (r.1, r.2 + 1)
      else
        removalLoop note nextPaths fs rest

/-- One pass of `_cleanup_empty_directories` over the sorted snapshot of
directories: remove each directory found empty when visited. -/
def cleanupLoop : FS → List FPath → FS
  | fs, [] => fs
  | fs, d :: rest =>
    cleanupLoop (if hasChild fs d then fs else removeDir fs d) rest

/-- Mirrors `SyncEngine._cleanup_empty_directories`: snapshot every
directory strictly below `root`, sort deepest first, and remove each one
that is empty when visited. -/
def cleanupEmptyDirectories (fs : FS) (root : FPath) : FS :=
  if root ∈ fs.dirs then
    cleanupLoop fs
      ((fs.dirs.filter (fun d => decide (root <+: d ∧ d ≠ root))).mergeSort
        (fun a b => decide (b.length ≤ a.length)))
  else
    fs

/-- Sorting of `next_items` (core.py line 999): stable sort by
case-folded local relative path. -/
def sortItems (items : List SyncedFileItem) : List SyncedFileItem :=
  items.mergeSort
    (fun a b => decide (a.local_relative_path.toLower ≤ b.local_relative_path.toLower))

/-- The status string computed at core.py lines 1005-1013. -/
def folderStatus (n changed removed failed skipped : Nat) : String :=
  if n = 0 then
    "Folder synced: 0 files"
  else if changed > 0 ∨ removed > 0 ∨ failed > 0 ∨ skipped > 0 then
    "Folder synced: " ++ toString n ++ " files (" ++ toString changed ++
      " updated, " ++ toString removed ++ " removed, " ++ toString failed ++
      " failed, " ++ toString skipped ++ " skipped)"
  else
    "Folder no changes: " ++ toString n ++ " files"

/-- The full outcome of `_apply_folder_sync`: new note record, new
filesystem, the four counters, and the function's integer return value. -/
structure FolderSyncResult where
  note : NoteItem
  fs : FS
  changed : Nat
  removed : Nat
  failed : Nat
  skipped : Nat
  ret : Nat
deriving DecidableEq

/-- Shallow embedding of `SyncEngine._apply_folder_sync` (core.py lines
932-1015).  `h` abstracts SHA-256 hashing and `now` the current
timestamp. -/
def applyFolderSync (h : Content → String) (now : String) (note : NoteItem)
    (fs0 : FS) (dfiles : List DownloadedFolderFile) : FolderSyncResult :=
  let root := sourceDir note
  let fs1 := mkdirParents fs0 root
  let previousSourceType := note.source_type
  let previous := note.folder_files
  let fs2 := fsUnlink fs1 (singleFilePath note)
  let lp := folderLoop h note previous fs2 dfiles
  let fs3 := lp.1
  let changed := lp.2.1
  let skipped := lp.2.2.1
  let failed := lp.2.2.2.1
  let items := lp.2.2.2.2
  let nextPaths := items.map (fun x => x.local_relative_path)
  let rp := removalLoop note nextPaths fs3 previous
  let fs4 := rp.1
  let removed := rp.2
  let fs5 := cleanupEmptyDirectories fs4 root
  let bump := changed > 0 ∨ removed > 0 ∨ previousSourceType ≠ some "folder"
  { note :=
      { note with
        source_type := some "folder"
        folder_files := sortItems items
        sha256 := none
        last_updated_at := if bump then some now else note.last_updated_at
        status := folderStatus items.length changed removed failed skipped }
    fs := fs5
    changed := changed
    removed := removed
    failed := failed
    skipped := skipped
    ret := if bump then 1 else 0 }

/-- Outcome of the download phase of `sync_single_note`, abstracting the
network: the body either raises `SyncCancelled`, raises a `DownloadError`
(or any other exception) with a message, or returns a staged single file
or a folder listing. -/
inductive DownloadOutcome where
  | cancelled
  | failed (msg : String)
  | single (content : Content)
  | folder (files : List DownloadedFolderFile)
deriving DecidableEq

/-- The `SyncResult` record returned by `sync_single_note`. -/
structure SyncResult where
  note : NoteItem
  updated_count : Nat
  error_count : Nat
deriving DecidableEq

/-- Shallow embedding of `SyncEngine.sync_single_note` (core.py lines
849-910), returning the `SyncResult` together with the new filesystem. -/
def syncSingleNote (h : Content → String) (now : String) (note0 : NoteItem)
    (fs : FS) (outcome : DownloadOutcome) : SyncResult × FS :=
  let note := { note0 with last_checked_at := some now }
  match outcome with
  | .cancelled =>
    ({ note := { note with status := "Stopped", last_error := none }
       updated_count := 0, error_count := 0 }, fs)
  | .failed msg =>
    ({ note := { note with status := "Error: " ++ msg, last_error := some msg }
       updated_count := 0, error_count := 1 }, fs)
  | .single c =>
    let newHash := h c
    let dest := singleFilePath note0
    let hasChanges :=
      match fsRead fs dest with
      | some b => decide (h b ≠ newHash)
      | none => true
    let fs1 := if hasChanges then replaceFile fs dest c else fs
    let note1 :=
      if hasChanges then
        { note with last_updated_at := some now, status := "Updated" }
      else
        { note with status := "No changes" }
    let note2 :=
      { note1 with
        sha256 := some newHash
        source_type := some "file"
        folder_files := [] }
    let fs2 := rmtreeUnder fs1 (sourceDir note0)
    ({ note := { note2 with last_error := none }
       updated_count := if hasChanges then 1 else 0
       error_count := 0 }, fs2)
  | .folder dfiles =>
    let r := applyFolderSync h now note fs dfiles
    ({ note := { r.note with last_error := none }
       updated_count := r.ret, error_count := 0 }, r.fs)

/-- Mirrors `NotesDownloader._sanitized_path_parts`: split on `/` and
discard empty, `.` and `..` segments (a missing or empty path gives `[]`). -/
def sanitizedPathParts (path : Option String) : List String :=
  match path with
  | none => []
  | some p => (pySplit '/' p).filter (fun x => decide (x ≠ "" ∧ x ≠ "." ∧ x ≠ ".."))

/-- Mirrors `NotesDownloader._make_safe_relative_path`; `fresh` stands for
the freshly generated `str(uuid.uuid4())` used as the final fallback. -/
def makeSafeRelativePath (fresh : String) (remote_path : String)
    (root_path : Option String) : String :=
  let remoteParts := sanitizedPathParts (some remote_path)
  let rootParts := sanitizedPathParts root_path
  let relative :=
    if rootParts.length ≤ remoteParts.length ∧
        remoteParts.take rootParts.length = rootParts then
      remoteParts.drop rootParts.length
    else
      remoteParts
  let rel1 :=
    if relative = [] ∧ remoteParts ≠ [] then [remoteParts.getLastD ""] else relative
  let rel2 := if rel1 = [] then [fresh] else rel1
  String.intercalate "/" rel2

/-- The `VIDEO_EXTENSIONS` set of `NotesDownloader`. -/
def videoExtensions : List String :=
  ["3gp", "avi", "flv", "m2ts", "m4v", "mkv", "mov", "mp4", "mpeg", "mpg",
   "mts", "ogv", "ts", "webm", "wmv"]

/-- Mirrors `pathlib.Path(name).suffix`: the final `.`-suffix of the last
path component, empty unless the last dot sits strictly inside the name. -/
def pySuffix (s : String) : List Char :=
  let name := ((splitPath s).getLastD "").toList
  match (name.reverse.findIdx? (fun c => decide (c = '.'))) with
  | none => []
  | some j =>
    let i := name.length - 1 - j
    if 0 < i ∧ i < name.length - 1 then name.drop i else []

/-- One Yandex Disk public API resource or listing item: the JSON fields
consulted by the downloader (`type`, `path`, `name`, `modified`, `size`,
`mime_type`, `_embedded.items`). -/
inductive YandexEntry where
  | mk (etype : String) (path : Option String) (name : Option String)
      (modified : Option String) (size : Option Int) (mime_type : Option String)
      (items : List YandexEntry)

def YandexEntry.etype : YandexEntry → String
  | .mk t _ _ _ _ _ _ => t

def YandexEntry.path : YandexEntry → Option String
  | .mk _ p _ _ _ _ _ => p

def YandexEntry.name : YandexEntry → Option String
  | .mk _ _ n _ _ _ _ => n

def YandexEntry.modified : YandexEntry → Option String
  | .mk _ _ _ m _ _ _ => m

def YandexEntry.size : YandexEntry → Option Int
  | .mk _ _ _ _ s _ _ => s

def YandexEntry.mime_type : YandexEntry → Option String
  | .mk _ _ _ _ _ m _ => m

def YandexEntry.items : YandexEntry → List YandexEntry
  | .mk _ _ _ _ _ _ i => i

/-- Mirrors `NotesDownloader._is_video_entry`. -/
def isVideoEntry (entry : YandexEntry) : Bool :=
  let mime := (entry.mime_type.getD "").toLower
  if mime.startsWith "video/" then true
  else
    let nm := (entry.name.getD "").toLower
    let ext := String.mk ((pySuffix nm).dropWhile (fun c => decide (c = '.')))
    decide (ext ∈ videoExtensions)

/-- Mirrors `NotesDownloader._normalize_modified`. -/
def normalizeModified (value : Option String) : Option String :=
  if pyTruthy value then value else none

/-- The per-entry skip / fetch decision of
`NotesDownloader._download_yandex_folder_files` (core.py lines 411-446):
`fetch` stands for the result of `_download_from_yandex_resource` (only
consulted when neither skip rule fires) and `fresh` for the `uuid4`
fallback of path sanitization. -/
def folderEntryResult (opts : DownloadOptions) (fresh : String)
    (folder_path : Option String) (fetch : Except String Content)
    (entry : YandexEntry) : DownloadedFolderFile :=
  let remote_path := entry.path.getD ""
  let local_path := makeSafeRelativePath fresh remote_path folder_path
  let modified_at := normalizeModified entry.modified
  let base : DownloadedFolderFile :=
    { remote_path := remote_path
      local_relative_path := local_path
      temp := none
      modified_at := modified_at
      size_bytes := entry.size
      mime_type := entry.mime_type
      was_skipped := false
      download_error := none }
  if opts.skip_video_files ∧ isVideoEntry entry then
    { base with was_skipped := true }
  else if opts.skip_large_files ∧ opts.max_file_size_bytes > 0 ∧
      (match entry.size with
       | some n => decide (n > opts.max_file_size_bytes)
       | none => false) = true then
    { base with was_skipped := true }
  else
    match fetch with
    | .ok c => { base with temp := some c }
    | .error e => { base with download_error := some e }

/-- Shallow embedding of `NotesDownloader._collect_yandex_files` (core.py
lines 466-496): `fetch` abstracts `_fetch_yandex_public_resource`
(returning `none` on a 404).  The explicit depth guard makes the function
total even on cyclic listings. -/
def collectYandexFiles (fetch : Option String → Option YandexEntry)
    (path : Option String) (depth : Nat) : List YandexEntry :=
  if hdep : depth > 8 then []
  else
    match fetch path with
    | none => []
    | some r =>
      if r.etype = "file" then [r]
      else if r.etype = "dir" then
        r.items.flatMap (fun item =>
          if item.etype = "file" then [item]
          else if item.etype = "dir" ∧ pyTruthy item.path then
            collectYandexFiles fetch item.path (depth + 1)
          else [])
      else []
termination_by 9 - depth
decreasing_by omega

/-- A resolved Yandex public resource descriptor (`{public_key, path}`). -/
structure ResourceDescriptor where
  public_key : String
  path : Option String
deriving DecidableEq

/-- The pseudo-URL scheme literal of `_parse_yandex_public_pseudo_url`. -/
def pseudoPrefixChars : List Char := "ya-disk-public://".toList

/-- Mirrors Python `str.strip()` (whitespace from both ends). -/
def pyStrip (l : List Char) : List Char :=
  ((l.dropWhile Char.isWhitespace).reverse.dropWhile Char.isWhitespace).reverse

/-- Mirrors Python `str.strip(c)` for a single character. -/
def pyStripChar (c : Char) (l : List Char) : List Char :=
  ((l.dropWhile (fun x => decide (x = c))).reverse.dropWhile
    (fun x => decide (x = c))).reverse

/-- Mirrors Python `remainder.split(":/", 1)`: `none` when `":/"` does not
occur, otherwise the text before and after its first occurrence (scanning
left to right). -/
def splitColonSlash : List Char → Option (List Char × List Char)
  | [] => none
  | c :: rest =>
    if c = ':' ∧ rest.head? = some '/' then some ([], rest.tail)
    else (splitColonSlash rest).map (fun pr => (c :: pr.1, pr.2))

/-- Mirrors `key_part.replace(" ", "+")`. -/
def plusifySpaces (l : List Char) : List Char :=
  l.map (fun c => if c = ' ' then '+' else c)

/-- Shallow embedding of `NotesDownloader._parse_yandex_public_pseudo_url`
(core.py lines 722-747). -/
def parseYandexPublicPseudoUrl (raw : String) : Option ResourceDescriptor :=
  let trimmed := pyStrip raw.toList
  if pseudoPrefixChars.isPrefixOf (trimmed.map Char.toLower) then
    let remainder := trimmed.drop pseudoPrefixChars.length
    if remainder = [] then none
    else
      let kp :=
        match splitColonSlash remainder with
        | some pr =>
          let cleaned := pyStripChar '/' pr.2
          (pr.1, if cleaned = [] then none
                 else some (String.mk ('/' :: cleaned)))
        | none => (remainder, (none : Option String))
      let keyPart := plusifySpaces (pyStrip kp.1)
      if keyPart = [] then none
      else some { public_key := String.mk (pseudoPrefixChars ++ keyPart), path := kp.2 }
  else none

/-- The fields of a `urllib.parse.ParseResult` that the resolver consults:
`raw` is `geturl()`, `host` is `hostname or ""`, and `urlParam` is the
first value of the `url` query parameter as extracted by `parse_qs`. -/
structure ParsedUrl where
  raw : String
  host : String
  urlParam : Option String

/-- Mirrors Python `pat in s` substring tests on strings. -/
def strContains (s pat : String) : Bool :=
  decide (pat.toList <:+: s.toList)

/-- Shallow embedding of `NotesDownloader._resolve_yandex_public_resource`
(core.py lines 693-720).  `unquoteFn` abstracts `urllib.parse.unquote` and
`parseUrlFn` abstracts `NotesDownloader._parse_url` (with `none` for a
raised `DownloadError`); neither matters for the claims proved here, which
only concern the branch taken before any host classification. -/
def resolveYandexPublicResource (unquoteFn : String → String)
    (parseUrlFn : String → Option ParsedUrl)
    (u : ParsedUrl) (depth : Nat) : Option ResourceDescriptor :=
  if hdep : depth > 5 then none
  else
    match parseYandexPublicPseudoUrl u.raw with
    | some r => some r
    | none =>
      let host := u.host.toLower
      if strContains host "docs.yandex" then
        let wrapped := u.urlParam.getD ""
        if wrapped = "" then some { public_key := u.raw, path := none }
        else
          let decoded := unquoteFn wrapped
          match parseYandexPublicPseudoUrl decoded with
          | some p => some p
          | none =>
            match parseUrlFn decoded with
            | none => none
            | some nested =>
              resolveYandexPublicResource unquoteFn parseUrlFn nested (depth + 1)
      else if strContains host "yadi.sk" ∨ strContains host "disk.yandex" ∨
          strContains host "disk.360.yandex" then
        some { public_key := u.raw, path := none }
      else none
termination_by 6 - depth
decreasing_by omega

/-- A traversal-safe path segment: nonempty and not a dot component. -/
abbrev goodSeg (seg : String) : Prop :=
  seg ≠ "" ∧ seg ≠ "." ∧ seg ≠ ".."

/-- The hash recorded for one folder entry when the filesystem is not
modified at its destination before it is processed (derived notion used to
state loop characterizations). -/
def entrySha (h : Content → String) (note : NoteItem)
    (previous : List SyncedFileItem) (fs : FS) (f : DownloadedFolderFile) : String :=
  match f.temp with
  | some c => h c
  | none =>
    match fsRead fs (sourceFilePath note f.local_relative_path) with
    | some b => h b
    | none =>
      match dictGet previous f.local_relative_path with
      | some it => it.sha256
      | none => ""

/-- Reachability of an entry in the Yandex listing tree within the depth
bound, written from the spec: at depth `d ≤ 8`, a `type == "file"`
resource at the queried path is reachable, a `type == "file"` item of a
listed `type == "dir"` resource is reachable, and anything reachable at
depth `d + 1` through a listed subdirectory with a truthy path is
reachable. -/
inductive YandexReach (fetch : Option String → Option YandexEntry) :
    Option String → Nat → YandexEntry → Prop where
  | top_file (path : Option String) (d : Nat) (r : YandexEntry) :
      d ≤ 8 → fetch path = some r → r.etype = "file" →
      YandexReach fetch path d r
  | item_file (path : Option String) (d : Nat) (r item : YandexEntry) :
      d ≤ 8 → fetch path = some r → r.etype = "dir" → item ∈ r.items →
      item.etype = "file" → YandexReach fetch path d item
  | item_dir (path : Option String) (d : Nat) (r item e : YandexEntry) :
      d ≤ 8 → fetch path = some r → r.etype = "dir" → item ∈ r.items →
      item.etype = "dir" → pyTruthy item.path = true →
      YandexReach fetch item.path (d + 1) e →
      YandexReach fetch path d e

/-! ### Basic filesystem lemmas -/

theorem find?_filter_of_imp {β : Type} {l : List β} {f pq : β → Bool}
    (h : ∀ x, pq x = true → f x = true) :
    (l.filter f).find? pq = l.find? pq := by
  induction l with
  | nil => rfl
  | cons a t ih =>
    rw [List.filter_cons]
    by_cases hf : f a = true
    · rw [if_pos hf]
      by_cases hpq : pq a = true
      · rw [List.find?_cons_of_pos _ hpq, List.find?_cons_of_pos _ hpq]
      · rw [List.find?_cons_of_neg _ hpq, List.find?_cons_of_neg _ hpq, ih]
    · have hpqa : ¬ (pq a = true) := fun hp => hf (h a hp)
      rw [if_neg hf, ih, List.find?_cons_of_neg _ hpqa]

@[simp] theorem files_mkdirParents (fs : FS) (p : FPath) :
    (mkdirParents fs p).files = fs.files := rfl

@[simp] theorem fsRead_mkdirParents (fs : FS) (p q : FPath) :
    fsRead (mkdirParents fs p) q = fsRead fs q := rfl

theorem fsRead_rmtreeUnder_of_prefix {p q : FPath} (fs : FS) (hpq : p <+: q) :
    fsRead (rmtreeUnder fs p) q = none := by
  have h1 : List.find? (fun e => decide (e.1 = q)) (rmtreeUnder fs p).files = none := by
    rw [List.find?_eq_none]
    intro x hx
    have hx' : x ∈ fs.files.filter (fun e => decide (¬ p <+: e.1)) := hx
    rcases List.mem_filter.1 hx' with ⟨-, hpe⟩
    simp only [decide_eq_true_eq] at hpe ⊢
    intro hq
    exact hpe (hq ▸ hpq)
  unfold fsRead
  rw [h1]
  rfl

theorem fsRead_rmtreeUnder_of_not_prefix {p q : FPath} (fs : FS)
    (hpq : ¬ p <+: q) : fsRead (rmtreeUnder fs p) q = fsRead fs q := by
  unfold fsRead rmtreeUnder
  rw [find?_filter_of_imp]
  intro e he
  simp only [decide_eq_true_eq] at he ⊢
  intro hc
  exact hpq (he ▸ hc)

@[simp] theorem fsRead_fsUnlink_self (fs : FS) (p : FPath) :
    fsRead (fsUnlink fs p) p = none := by
  have h1 : List.find? (fun e => decide (e.1 = p)) (fsUnlink fs p).files = none := by
    rw [List.find?_eq_none]
    intro x hx
    have hx' : x ∈ fs.files.filter (fun e => decide (e.1 ≠ p)) := hx
    rcases List.mem_filter.1 hx' with ⟨-, hpe⟩
    simp only [ne_eq, decide_not, Bool.not_eq_true', decide_eq_false_iff_not] at hpe
    simp only [decide_eq_true_eq]
    exact hpe
  unfold fsRead
  rw [h1]
  rfl

theorem fsRead_fsUnlink_of_ne {p q : FPath} (fs : FS) (hpq : q ≠ p) :
    fsRead (fsUnlink fs p) q = fsRead fs q := by
  unfold fsRead fsUnlink
  rw [find?_filter_of_imp]
  intro e he
  simp only [decide_eq_true_eq, ne_eq, decide_not, Bool.not_eq_true',
    decide_eq_false_iff_not] at he ⊢
  intro hc
  exact hpq (he ▸ hc)

@[simp] theorem fsRead_replaceFile_self (fs : FS) (dest : FPath) (c : Content) :
    fsRead (replaceFile fs dest c) dest = some c := by
  simp [replaceFile, fsRead, List.find?]

theorem fsRead_replaceFile_of_ne {dest q : FPath} (fs : FS) (c : Content)
    (hq : q ≠ dest) : fsRead (replaceFile fs dest c) q = fsRead fs q := by
  unfold replaceFile fsRead
  simp only [files_mkdirParents]
  have hd : (decide ((dest, c).1 = q)) = false := by
    simp only [decide_eq_false_iff_not]
    intro hc
    exact hq hc.symm
  simp only [List.find?, hd]
  rw [find?_filter_of_imp]
  intro e he
  simp only [decide_eq_true_eq, ne_eq, decide_not, Bool.not_eq_true',
    decide_eq_false_iff_not] at he ⊢
  intro hc
  exact hq (he ▸ hc)

/-- The two storage areas are disjoint: a single-file destination is never
below a folder source directory. -/
theorem sourceDir_not_prefix_singleFilePath (note note' : NoteItem) :
    ¬ sourceDir note <+: singleFilePath note' := by
  intro h
  rcases h with ⟨t, ht⟩
  simp [sourceDir, singleFilePath, List.cons_append] at ht

/-! ### Characterization lemmas for the engine entry points -/

theorem syncSingleNote_single_of_no_changes (h : Content → String) (now : String)
    (note0 : NoteItem) (fs : FS) (c : Content)
    (hch : (match fsRead fs (singleFilePath note0) with
            | some b => decide (h b ≠ h c)
            | none => true) = false) :
    syncSingleNote h now note0 fs (DownloadOutcome.single c) =
      ({ note := { note0 with
                   last_checked_at := some now
                   status := "No changes"
                   sha256 := some (h c)
                   source_type := some "file"
                   folder_files := []
                   last_error := none }
         updated_count := 0
         error_count := 0 },
       rmtreeUnder fs (sourceDir note0)) := by
  simp only [syncSingleNote, hch]
  rfl

theorem syncSingleNote_single_of_changes (h : Content → String) (now : String)
    (note0 : NoteItem) (fs : FS) (c : Content)
    (hch : (match fsRead fs (singleFilePath note0) with
            | some b => decide (h b ≠ h c)
            | none => true) = true) :
    syncSingleNote h now note0 fs (DownloadOutcome.single c) =
      ({ note := { note0 with
                   last_checked_at := some now
                   last_updated_at := some now
                   status := "Updated"
                   sha256 := some (h c)
                   source_type := some "file"
                   folder_files := []
                   last_error := none }
         updated_count := 1
         error_count := 0 },
       rmtreeUnder (replaceFile fs (singleFilePath note0) c) (sourceDir note0)) := by
  simp only [syncSingleNote, hch]
  rfl

theorem applyFolderSync_folder_files_def (h : Content → String) (now : String)
    (note : NoteItem) (fs : FS) (dfiles : List DownloadedFolderFile) :
    (applyFolderSync h now note fs dfiles).note.folder_files =
      sortItems (folderLoop h note note.folder_files
        (fsUnlink (mkdirParents fs (sourceDir note)) (singleFilePath note))
        dfiles).2.2.2.2 := rfl

theorem applyFolderSync_changed_def (h : Content → String) (now : String)
    (note : NoteItem) (fs : FS) (dfiles : List DownloadedFolderFile) :
    (applyFolderSync h now note fs dfiles).changed =
      (folderLoop h note note.folder_files
        (fsUnlink (mkdirParents fs (sourceDir note)) (singleFilePath note))
        dfiles).2.1 := rfl

theorem applyFolderSync_ret_def (h : Content → String) (now : String)
    (note : NoteItem) (fs : FS) (dfiles : List DownloadedFolderFile) :
    (applyFolderSync h now note fs dfiles).ret =
      if (applyFolderSync h now note fs dfiles).changed > 0 ∨
          (applyFolderSync h now note fs dfiles).removed > 0 ∨
          note.source_type ≠ some "folder" then 1 else 0 := rfl

theorem folderLoop_items_length (h : Content → String) (note : NoteItem)
    (previous : List SyncedFileItem) :
    ∀ (dfiles : List DownloadedFolderFile) (fs : FS),
      ((folderLoop h note previous fs dfiles).2.2.2.2).length = dfiles.length := by
  intro dfiles
  induction dfiles with
  | nil => intro fs; rfl
  | cons f rest ih =>
    intro fs
    simp only [folderLoop, List.length_cons]
    rw [ih]

/-! ### Claim C5 -/

/-- C5: `sync_single_note` never propagates an exception: a run that
raises `SyncCancelled` returns status "Stopped" with `last_error` cleared
and `error_count = 0`; a run that raises `DownloadError` (or any other
exception) with message `msg` returns status `"Error: " ++ msg`, records
the message in `last_error`, and counts exactly one run-level error. -/
theorem sync_single_note_exception_policy (h : Content → String) (now : String)
    (note : NoteItem) (fs : FS) (msg : String) :
    ((syncSingleNote h now note fs DownloadOutcome.cancelled).1.note.status = "Stopped" ∧
     (syncSingleNote h now note fs DownloadOutcome.cancelled).1.note.last_error = none ∧
     (syncSingleNote h now note fs DownloadOutcome.cancelled).1.error_count = 0 ∧
     (syncSingleNote h now note fs DownloadOutcome.cancelled).1.updated_count = 0) ∧
    ((syncSingleNote h now note fs (DownloadOutcome.failed msg)).1.note.status = "Error: " ++ msg ∧
     (syncSingleNote h now note fs (DownloadOutcome.failed msg)).1.note.last_error = some msg ∧
     (syncSingleNote h now note fs (DownloadOutcome.failed msg)).1.error_count = 1 ∧
     (syncSingleNote h now note fs (DownloadOutcome.failed msg)).1.updated_count = 0) :=
  ⟨⟨rfl, rfl, rfl, rfl⟩, ⟨rfl, rfl, rfl, rfl⟩⟩

/-! ### Claim C10 -/

/-- C10: every `SyncResult` has `updated_count` and `error_count` in
\{0, 1\}; for a folder sync, `updated_count = 1` exactly when something
changed, something was removed, or the target just switched into folder
mode — regardless of how many files changed. -/
theorem sync_result_counts (h : Content → String) (now : String)
    (note : NoteItem) (fs : FS) :
    (∀ o : DownloadOutcome,
      ((syncSingleNote h now note fs o).1.updated_count = 0 ∨
       (syncSingleNote h now note fs o).1.updated_count = 1) ∧
      ((syncSingleNote h now note fs o).1.error_count = 0 ∨
       (syncSingleNote h now note fs o).1.error_count = 1)) ∧
    (∀ dfiles : List DownloadedFolderFile,
      ((syncSingleNote h now note fs (DownloadOutcome.folder dfiles)).1.updated_count = 1 ↔
        (applyFolderSync h now { note with last_checked_at := some now } fs dfiles).changed > 0 ∨
        (applyFolderSync h now { note with last_checked_at := some now } fs dfiles).removed > 0 ∨
        note.source_type ≠ some "folder")) := by
  constructor
  · intro o
    cases o with
    | cancelled => exact ⟨Or.inl rfl, Or.inl rfl⟩
    | failed msg => exact ⟨Or.inl rfl, Or.inr rfl⟩
    | single c =>
      refine ⟨?_, Or.inl rfl⟩
      by_cases hch : (match fsRead fs (singleFilePath note) with
          | some b => decide (h b ≠ h c)
          | none => true) = true
      · rw [syncSingleNote_single_of_changes h now note fs c hch]
        exact Or.inr rfl
      · rw [syncSingleNote_single_of_no_changes h now note fs c
          (Bool.not_eq_true _ ▸ hch)]
        exact Or.inl rfl
    | folder dfiles =>
      refine ⟨?_, Or.inl rfl⟩
      have hret : (syncSingleNote h now note fs (DownloadOutcome.folder dfiles)).1.updated_count =
          (applyFolderSync h now { note with last_checked_at := some now } fs dfiles).ret := rfl
      rw [hret, applyFolderSync_ret_def]
      by_cases hb : (applyFolderSync h now { note with last_checked_at := some now } fs dfiles).changed > 0 ∨
          (applyFolderSync h now { note with last_checked_at := some now } fs dfiles).removed > 0 ∨
          note.source_type ≠ some "folder"
      · rw [if_pos hb]; exact Or.inr rfl
      · rw [if_neg hb]; exact Or.inl rfl
  · intro dfiles
    have hret : (syncSingleNote h now note fs (DownloadOutcome.folder dfiles)).1.updated_count =
        (applyFolderSync h now { note with last_checked_at := some now } fs dfiles).ret := rfl
    rw [hret, applyFolderSync_ret_def]
    by_cases hb : (applyFolderSync h now { note with last_checked_at := some now } fs dfiles).changed > 0 ∨
        (applyFolderSync h now { note with last_checked_at := some now } fs dfiles).removed > 0 ∨
        note.source_type ≠ some "folder"
    · rw [if_pos hb]
      simp [hb]
    · rw [if_neg hb]
      simp [hb]

/-! ### Claim C2 -/

/-- C2: in `sync_single_note`'s single-file branch the downloaded temp
file is hashed; an identical hash at the fixed destination discards the
temp file and yields status "No changes", a differing or absent file
atomically replaces the destination, sets `last_updated_at` and yields
status "Updated"; in both cases the new hash is recorded in `sha256`,
`source_type` becomes "file", and the target's folder mirror directory is
deleted. -/
theorem single_file_reconciliation (h : Content → String) (now : String)
    (note : NoteItem) (fs : FS) (c : Content) :
    (syncSingleNote h now note fs (DownloadOutcome.single c)).1.note.sha256 = some (h c) ∧
    (syncSingleNote h now note fs (DownloadOutcome.single c)).1.note.source_type = some "file" ∧
    (syncSingleNote h now note fs (DownloadOutcome.single c)).1.note.folder_files = [] ∧
    (syncSingleNote h now note fs (DownloadOutcome.single c)).1.error_count = 0 ∧
    (∀ p, sourceDir note <+: p →
      fsRead (syncSingleNote h now note fs (DownloadOutcome.single c)).2 p = none) ∧
    (∀ b, fsRead fs (singleFilePath note) = some b → h b = h c →
      (syncSingleNote h now note fs (DownloadOutcome.single c)).1.note.status = "No changes" ∧
      (syncSingleNote h now note fs (DownloadOutcome.single c)).1.updated_count = 0 ∧
      (syncSingleNote h now note fs (DownloadOutcome.single c)).1.note.last_updated_at = note.last_updated_at ∧
      fsRead (syncSingleNote h now note fs (DownloadOutcome.single c)).2 (singleFilePath note) = some b) ∧
    ((∀ b, fsRead fs (singleFilePath note) = some b → h b ≠ h c) →
      (syncSingleNote h now note fs (DownloadOutcome.single c)).1.note.status = "Updated" ∧
      (syncSingleNote h now note fs (DownloadOutcome.single c)).1.updated_count = 1 ∧
      (syncSingleNote h now note fs (DownloadOutcome.single c)).1.note.last_updated_at = some now ∧
      fsRead (syncSingleNote h now note fs (DownloadOutcome.single c)).2 (singleFilePath note) = some c) := by
  refine ⟨rfl, rfl, rfl, rfl, ?_, ?_, ?_⟩
  · intro p hp
    exact fsRead_rmtreeUnder_of_prefix _ hp
  · intro b hb hh
    have hch : (match fsRead fs (singleFilePath note) with
        | some x => decide (h x ≠ h c)
        | none => true) = false := by
      rw [hb]
      simp [hh]
    rw [syncSingleNote_single_of_no_changes h now note fs c hch]
    refine ⟨rfl, rfl, rfl, ?_⟩
    rw [ fsRead_rmtreeUnder_of_not_prefix fs (sourceDir_not_prefix_singleFilePath note note)]
    exact hb
  · intro hdiff
    have hch : (match fsRead fs (singleFilePath note) with
        | some x => decide (h x ≠ h c)
        | none => true) = true := by
      rcases hfs : fsRead fs (singleFilePath note) with - | b
      · rfl
      · simpa using hdiff b hfs
    rw [syncSingleNote_single_of_changes h now note fs c hch]
    refine ⟨rfl, rfl, rfl, ?_⟩
    rw [ fsRead_rmtreeUnder_of_not_prefix _ (sourceDir_not_prefix_singleFilePath note note)]
    exact fsRead_replaceFile_self fs (singleFilePath note) c

/-- Witness for C2: a concrete run on an empty store takes the
"different or absent" branch, replaces the destination and reports
"Updated". -/
theorem single_file_reconciliation_witness :
    (syncSingleNote (fun b => toString b) "2024-01-01T00:00:00Z"
      { id := "n1", file_name := "f1.pdf", sha256 := none, last_checked_at := none,
        last_updated_at := none, status := "Never synced", last_error := none,
        source_type := none, folder_files := [] }
      { files := [], dirs := [] }
      (DownloadOutcome.single [1, 2])).1.note.status = "Updated" ∧
    (syncSingleNote (fun b => toString b) "2024-01-01T00:00:00Z"
      { id := "n1", file_name := "f1.pdf", sha256 := none, last_checked_at := none,
        last_updated_at := none, status := "Never synced", last_error := none,
        source_type := none, folder_files := [] }
      { files := [], dirs := [] }
      (DownloadOutcome.single [1, 2])).1.updated_count = 1 ∧
    (syncSingleNote (fun b => toString b) "2024-01-01T00:00:00Z"
      { id := "n1", file_name := "f1.pdf", sha256 := none, last_checked_at := none,
        last_updated_at := none, status := "Never synced", last_error := none,
        source_type := none, folder_files := [] }
      { files := [], dirs := [] }
      (DownloadOutcome.single [1, 2])).1.note.last_updated_at = some "2024-01-01T00:00:00Z" ∧
    fsRead (syncSingleNote (fun b => toString b) "2024-01-01T00:00:00Z"
      { id := "n1", file_name := "f1.pdf", sha256 := none, last_checked_at := none,
        last_updated_at := none, status := "Never synced", last_error := none,
        source_type := none, folder_files := [] }
      { files := [], dirs := [] }
      (DownloadOutcome.single [1, 2])).2 ["pdfs", "f1.pdf"] = some [1, 2] :=
  (single_file_reconciliation (fun b => toString b) "2024-01-01T00:00:00Z"
      { id := "n1", file_name := "f1.pdf", sha256 := none, last_checked_at := none,
        last_updated_at := none, status := "Never synced", last_error := none,
        source_type := none, folder_files := [] }
      { files := [], dirs := [] } [1, 2]).2.2.2.2.2.2
    (fun b hb => by simp [fsRead] at hb)

/-! ### Claim C4 -/

/-- C4 counterexample: a folder reconciliation of an empty listing leaves
`source_type = "folder"` with an empty `folder_files`, so the claimed
equivalence "`source_type` is folder iff `folder_files` is non-empty"
fails. -/
theorem folder_invariant_counterexample :
    (applyFolderSync (fun b => toString b) "2024-01-01T00:00:00Z"
      { id := "n1", file_name := "f1.pdf", sha256 := none, last_checked_at := none,
        last_updated_at := none, status := "Never synced", last_error := none,
        source_type := none, folder_files := [] }
      { files := [], dirs := [] } []).note.source_type = some "folder" ∧
    (applyFolderSync (fun b => toString b) "2024-01-01T00:00:00Z"
      { id := "n1", file_name := "f1.pdf", sha256 := none, last_checked_at := none,
        last_updated_at := none, status := "Never synced", last_error := none,
        source_type := none, folder_files := [] }
      { files := [], dirs := [] } []).note.folder_files = [] := by
  constructor
  · rfl
  · rw [applyFolderSync_folder_files_def]
    show sortItems [] = []
    simp [sortItems]

/-- C4 amended: after a single-file reconciliation `source_type = "file"`,
`sha256` holds the new hash and `folder_files` is empty; after a folder
reconciliation `source_type = "folder"` (even for an empty listing),
`sha256` is cleared and `folder_files` has one entry per listed file.
Hence `sha256` is set only in file mode and non-empty `folder_files`
implies folder mode, but folder mode does not imply non-empty
`folder_files`. -/
theorem sync_mode_invariant_amended (h : Content → String) (now : String)
    (note : NoteItem) (fs : FS) (c : Content)
    (dfiles : List DownloadedFolderFile) :
    ((syncSingleNote h now note fs (DownloadOutcome.single c)).1.note.source_type = some "file" ∧
     (syncSingleNote h now note fs (DownloadOutcome.single c)).1.note.sha256 = some (h c) ∧
     (syncSingleNote h now note fs (DownloadOutcome.single c)).1.note.folder_files = []) ∧
    ((applyFolderSync h now note fs dfiles).note.source_type = some "folder" ∧
     (applyFolderSync h now note fs dfiles).note.sha256 = none ∧
     (applyFolderSync h now note fs dfiles).note.folder_files.length = dfiles.length) := by
  refine ⟨⟨rfl, rfl, rfl⟩, rfl, rfl, ?_⟩
  rw [applyFolderSync_folder_files_def]
  unfold sortItems
  rw [List.length_mergeSort]
  exact folderLoop_items_length h note note.folder_files dfiles _

/-! ### Claim C6 -/

theorem sanitizedPathParts_good {p : Option String} {seg : String}
    (hm : seg ∈ sanitizedPathParts p) : goodSeg seg := by
  cases p with
  | none => simp [sanitizedPathParts] at hm
  | some s =>
    simp only [sanitizedPathParts] at hm
    rcases List.mem_filter.1 hm with ⟨-, hg⟩
    simpa [goodSeg] using of_decide_eq_true hg

theorem str_data_append (x y : String) : (x ++ y).data = x.data ++ y.data := rfl

theorem intercalate_go_data (s : String) :
    ∀ (rest : List String) (acc : String),
      ∃ t, (String.intercalate.go acc s rest).data = acc.data ++ t := by
  intro rest
  induction rest with
  | nil => intro acc; exact ⟨[], by simp [String.intercalate.go]⟩
  | cons a as ih =>
    intro acc
    rcases ih (acc ++ s ++ a) with ⟨t, ht⟩
    refine ⟨s.data ++ a.data ++ t, ?_⟩
    rw [show String.intercalate.go acc s (a :: as) =
        String.intercalate.go (acc ++ s ++ a) s as from rfl, ht]
    simp [str_data_append]

theorem intercalate_cons_ne_empty (a : String) (rest : List String)
    (ha : a ≠ "") : String.intercalate "/" (a :: rest) ≠ "" := by
  rcases intercalate_go_data "/" rest a with ⟨t, ht⟩
  intro hcon
  have hd : (String.intercalate "/" (a :: rest)).data = [] := by rw [hcon]
  rw [show String.intercalate "/" (a :: rest) = String.intercalate.go a "/" rest
    from rfl, ht] at hd
  rcases List.append_eq_nil.1 hd with ⟨hda, -⟩
  apply ha
  cases a with
  | mk d =>
    simp only [String.data] at hda
    rw [hda]

theorem getLastD_mem_of_ne_nil {l : List String} (h : l ≠ []) :
    l.getLastD "" ∈ l := by
  cases l with
  | nil => exact absurd rfl h
  | cons b t =>
    rw [List.getLastD_cons]
    exact List.getLastD_mem_cons t b

/-- Every output of `_make_safe_relative_path` is the slash-join of a
nonempty list of segments, each taken from the sanitized remote path or
equal to the `uuid4` fallback. -/
theorem makeSafeRelativePath_segs (fresh remote : String) (root : Option String) :
    ∃ segs : List String,
      makeSafeRelativePath fresh remote root = String.intercalate "/" segs ∧
      segs ≠ [] ∧
      ∀ seg ∈ segs, seg ∈ sanitizedPathParts (some remote) ∨ seg = fresh := by
  simp only [makeSafeRelativePath]
  by_cases h1 : (sanitizedPathParts root).length ≤ (sanitizedPathParts (some remote)).length ∧
      (sanitizedPathParts (some remote)).take (sanitizedPathParts root).length = sanitizedPathParts root
  · rw [if_pos h1]
    by_cases h2 : (sanitizedPathParts (some remote)).drop (sanitizedPathParts root).length = [] ∧
        sanitizedPathParts (some remote) ≠ []
    · rw [if_pos h2]
      rw [if_neg (by simp : ¬(([(sanitizedPathParts (some remote)).getLastD ""] : List String) = []))]
      refine ⟨[(sanitizedPathParts (some remote)).getLastD ""], rfl, by simp, ?_⟩
      intro seg hs
      rw [List.mem_singleton] at hs
      subst hs
      exact Or.inl (getLastD_mem_of_ne_nil h2.2)
    · rw [if_neg h2]
      by_cases h3 : (sanitizedPathParts (some remote)).drop (sanitizedPathParts root).length = []
      · rw [if_pos h3]
        refine ⟨[fresh], rfl, by simp, ?_⟩
        intro seg hs
        rw [List.mem_singleton] at hs
        exact Or.inr hs
      · rw [if_neg h3]
        exact ⟨_, rfl, h3, fun seg hs => Or.inl (List.mem_of_mem_drop hs)⟩
  · rw [if_neg h1]
    rw [if_neg (by rintro ⟨ha, hb⟩; exact hb ha :
      ¬(sanitizedPathParts (some remote) = [] ∧ sanitizedPathParts (some remote) ≠ []))]
    by_cases h3 : sanitizedPathParts (some remote) = []
    · rw [if_pos h3]
      refine ⟨[fresh], rfl, by simp, ?_⟩
      intro seg hs
      rw [List.mem_singleton] at hs
      exact Or.inr hs
    · rw [if_neg h3]
      exact ⟨_, rfl, h3, fun seg hs => Or.inl hs⟩

/-- C6: `_make_safe_relative_path` strips the sanitized root prefix from
the sanitized remote path, falls back to the remote's last segment when
the difference is empty, and to a fresh identifier when even that is
empty; the result is always a nonempty slash-join of traversal-safe
segments, and on the spec's example it returns
"lectures/week1/notes.pdf". -/
theorem make_safe_relative_path_ok (fresh remote : String) (root : Option String)
    (hf : goodSeg fresh) :
    makeSafeRelativePath fresh "/disk/Root/lectures/week1/notes.pdf" (some "/disk/Root") =
      "lectures/week1/notes.pdf" ∧
    (∃ segs : List String,
      makeSafeRelativePath fresh remote root = String.intercalate "/" segs ∧
      segs ≠ [] ∧ (∀ seg ∈ segs, goodSeg seg) ∧
      makeSafeRelativePath fresh remote root ≠ "") ∧
    (∀ rest : List String, rest ≠ [] →
      sanitizedPathParts (some remote) = sanitizedPathParts root ++ rest →
      makeSafeRelativePath fresh remote root = String.intercalate "/" rest) ∧
    (sanitizedPathParts (some remote) = sanitizedPathParts root →
      sanitizedPathParts (some remote) ≠ [] →
      makeSafeRelativePath fresh remote root = (sanitizedPathParts (some remote)).getLastD "") ∧
    (sanitizedPathParts (some remote) = [] →
      makeSafeRelativePath fresh remote root = fresh) := by
  refine ⟨rfl, ?_, ?_, ?_, ?_⟩
  · rcases makeSafeRelativePath_segs fresh remote root with ⟨segs, heq, hne, hmem⟩
    have hgood : ∀ seg ∈ segs, goodSeg seg := by
      intro seg hs
      rcases hmem seg hs with hin | hfr
      · exact sanitizedPathParts_good hin
      · rw [hfr]; exact hf
    refine ⟨segs, heq, hne, hgood, ?_⟩
    rcases segs with - | ⟨a, rest⟩
    · exact absurd rfl hne
    · rw [heq]
      exact intercalate_cons_ne_empty a rest (hgood a (List.mem_cons_self a rest)).1
  · intro rest hne heq
    simp only [makeSafeRelativePath]
    rw [heq]
    have hcond : (sanitizedPathParts root).length ≤ (sanitizedPathParts root ++ rest).length ∧
        (sanitizedPathParts root ++ rest).take (sanitizedPathParts root).length = sanitizedPathParts root :=
      ⟨by simp, List.take_left _ _⟩
    rw [if_pos hcond, List.drop_left]
    rw [if_neg (by rintro ⟨ha, -⟩; exact hne ha :
      ¬(rest = [] ∧ sanitizedPathParts root ++ rest ≠ []))]
    rw [if_neg hne]
  · intro heq hne
    simp only [makeSafeRelativePath]
    rw [heq]
    have hcond : (sanitizedPathParts root).length ≤ (sanitizedPathParts root).length ∧
        (sanitizedPathParts root).take (sanitizedPathParts root).length = sanitizedPathParts root :=
      ⟨Nat.le_refl _, List.take_length _⟩
    rw [if_pos hcond, List.drop_length]
    rw [heq] at hne
    have hcc : ([] : List String) = [] ∧ sanitizedPathParts root ≠ [] := ⟨rfl, hne⟩
    rw [if_pos hcc]
    rw [if_neg (by simp : ¬(([(sanitizedPathParts root).getLastD ""] : List String) = []))]
    rfl
  · intro heq
    simp only [makeSafeRelativePath]
    rw [heq]
    by_cases h1 : (sanitizedPathParts root).length ≤ ([] : List String).length ∧
        ([] : List String).take (sanitizedPathParts root).length = sanitizedPathParts root
    · rw [if_pos h1]
      rw [if_neg (by rintro ⟨-, hb⟩; exact hb rfl :
        ¬(([] : List String).drop (sanitizedPathParts root).length = [] ∧ ([] : List String) ≠ []))]
      rw [if_pos (List.drop_nil)]
      rfl
    · rw [if_neg h1]
      rw [if_neg (by rintro ⟨-, hb⟩; exact hb rfl :
        ¬(([] : List String) = [] ∧ ([] : List String) ≠ []))]
      rw [if_pos rfl]
      rfl

/-- Witness for C6 at a concrete fallback identifier. -/
theorem make_safe_relative_path_witness :
    makeSafeRelativePath "u0123456" "/disk/Root/lectures/week1/notes.pdf" (some "/disk/Root") =
      "lectures/week1/notes.pdf" ∧
    makeSafeRelativePath "u0123456" "" (some "/x") = "u0123456" :=
  ⟨(make_safe_relative_path_ok "u0123456" "" (some "/x") (by decide)).1,
   (make_safe_relative_path_ok "u0123456" "" (some "/x") (by decide)).2.2.2.2 (by decide)⟩

/-! ### Loop analysis helpers -/

theorem entrySha_congr_read (h : Content → String) (note : NoteItem)
    (previous : List SyncedFileItem) {fs fs' : FS} (f : DownloadedFolderFile)
    (hr : fsRead fs' (sourceFilePath note f.local_relative_path) =
          fsRead fs (sourceFilePath note f.local_relative_path)) :
    entrySha h note previous fs' f = entrySha h note previous fs f := by
  unfold entrySha
  rw [hr]

theorem folderFileStep_fs_files_frame (h : Content → String) (note : NoteItem)
    (previous : List SyncedFileItem) (fs : FS) (f : DownloadedFolderFile)
    {p : FPath} (hp : sourceFilePath note f.local_relative_path ≠ p) :
    fsRead (folderFileStep h note previous fs f).1 p = fsRead fs p := by
  unfold folderFileStep
  cases hft : f.temp with
  | none => rfl
  | some c =>
    by_cases hch : (match fsRead (mkdirParents fs (sourceFilePath note f.local_relative_path).dropLast)
        (sourceFilePath note f.local_relative_path) with
      | some b => decide (h b ≠ h c)
      | none => true) = true
    · simp only [hch, if_true]
      rw [fsRead_replaceFile_of_ne _ c (fun hq => hp hq.symm)]
      rfl
    · rw [Bool.not_eq_true] at hch
      simp only [hch]
      simp

theorem folderFileStep_fs_no_write (h : Content → String) (note : NoteItem)
    (previous : List SyncedFileItem) (fs : FS) (f : DownloadedFolderFile)
    (hft : f.temp = none) {p : FPath} :
    fsRead (folderFileStep h note previous fs f).1 p = fsRead fs p := by
  unfold folderFileStep
  rw [hft]
  rfl

theorem folderLoop_files_frame (h : Content → String) (note : NoteItem)
    (previous : List SyncedFileItem) :
    ∀ (dfiles : List DownloadedFolderFile) (fs : FS) (p : FPath),
      (∀ g ∈ dfiles, g.temp ≠ none → sourceFilePath note g.local_relative_path ≠ p) →
      fsRead (folderLoop h note previous fs dfiles).1 p = fsRead fs p := by
  intro dfiles
  induction dfiles with
  | nil => intro fs p _; rfl
  | cons f rest ih =>
    intro fs p hg
    show fsRead (folderLoop h note previous (folderFileStep h note previous fs f).1 rest).1 p = _
    rw [ih _ p (fun g hgm => hg g (List.mem_cons_of_mem f hgm))]
    cases hft : f.temp with
    | none => exact folderFileStep_fs_no_write h note previous fs f hft
    | some c =>
      exact folderFileStep_fs_files_frame h note previous fs f
        (hg f (List.mem_cons_self f rest) (by rw [hft]; exact fun hc => Option.noConfusion hc))

theorem mem_dirs_mkdirParents {fs : FS} {p d : FPath} (hd : d ∈ fs.dirs) :
    d ∈ (mkdirParents fs p).dirs := by
  simp only [mkdirParents, List.mem_append]
  exact Or.inl hd

theorem folderFileStep_dirs_mono (h : Content → String) (note : NoteItem)
    (previous : List SyncedFileItem) (fs : FS) (f : DownloadedFolderFile)
    {d : FPath} (hd : d ∈ fs.dirs) :
    d ∈ (folderFileStep h note previous fs f).1.dirs := by
  unfold folderFileStep
  cases hft : f.temp with
  | none => exact mem_dirs_mkdirParents hd
  | some c =>
    by_cases hch : (match fsRead (mkdirParents fs (sourceFilePath note f.local_relative_path).dropLast)
        (sourceFilePath note f.local_relative_path) with
      | some b => decide (h b ≠ h c)
      | none => true) = true
    · simp only [hch, if_true]
      show d ∈ (replaceFile _ _ c).dirs
      exact mem_dirs_mkdirParents (mem_dirs_mkdirParents hd)
    · rw [Bool.not_eq_true] at hch
      simp only [hch]
      simp only [Bool.false_eq_true, if_false]
      exact mem_dirs_mkdirParents hd

theorem folderLoop_dirs_mono (h : Content → String) (note : NoteItem)
    (previous : List SyncedFileItem) :
    ∀ (dfiles : List DownloadedFolderFile) (fs : FS) (d : FPath),
      d ∈ fs.dirs → d ∈ (folderLoop h note previous fs dfiles).1.dirs := by
  intro dfiles
  induction dfiles with
  | nil => intro fs d hd; exact hd
  | cons f rest ih =>
    intro fs d hd
    exact ih _ d (folderFileStep_dirs_mono h note previous fs f hd)

theorem folderLoop_items_lrp (h : Content → String) (note : NoteItem)
    (previous : List SyncedFileItem) :
    ∀ (dfiles : List DownloadedFolderFile) (fs : FS),
      ((folderLoop h note previous fs dfiles).2.2.2.2).map (fun x => x.local_relative_path) =
        dfiles.map (fun f => f.local_relative_path) := by
  intro dfiles
  induction dfiles with
  | nil => intro fs; rfl
  | cons f rest ih =>
    intro fs
    show ((folderFileStep h note previous fs f).2.2.2.2 ::
        (folderLoop h note previous (folderFileStep h note previous fs f).1 rest).2.2.2.2).map
        (fun x => x.local_relative_path) = _
    simp only [List.map_cons, ih]
    congr 1
    unfold folderFileStep
    cases hft : f.temp with
    | none => rfl
    | some c =>
      by_cases hch : (match fsRead (mkdirParents fs (sourceFilePath note f.local_relative_path).dropLast)
          (sourceFilePath note f.local_relative_path) with
        | some b => decide (h b ≠ h c)
        | none => true) = true
      · simp only [hch, if_true]; rfl
      · simp only [Bool.not_eq_true] at hch
        simp only [hch, if_false]; rfl

theorem fsRead_congr_files {fs fs' : FS} (hf : fs'.files = fs.files) (p : FPath) :
    fsRead fs' p = fsRead fs p := by
  unfold fsRead
  rw [hf]

theorem folderFileStep_item_char (h : Content → String) (note : NoteItem)
    (previous : List SyncedFileItem) (fs : FS) (f : DownloadedFolderFile) :
    (folderFileStep h note previous fs f).2.2.2.2 =
      mkItem f (entrySha h note previous fs f) := by
  unfold folderFileStep entrySha
  cases hft : f.temp with
  | none =>
    simp only []
    rw [fsRead_mkdirParents]
  | some c =>
    by_cases hch : (match fsRead (mkdirParents fs (sourceFilePath note f.local_relative_path).dropLast)
        (sourceFilePath note f.local_relative_path) with
      | some b => decide (h b ≠ h c)
      | none => true) = true
    · simp only [hch, if_true]
    · rw [Bool.not_eq_true] at hch
      simp only [hch]
      simp

theorem folderFileStep_files_eq_of_no_change (h : Content → String) (note : NoteItem)
    (previous : List SyncedFileItem) (fs : FS) (f : DownloadedFolderFile)
    (hok : ∀ c, f.temp = some c →
      ∃ b, fsRead fs (sourceFilePath note f.local_relative_path) = some b ∧ h b = h c) :
    (folderFileStep h note previous fs f).1.files = fs.files ∧
    (folderFileStep h note previous fs f).2.1 = 0 := by
  unfold folderFileStep
  cases hft : f.temp with
  | none => exact ⟨rfl, rfl⟩
  | some c =>
    rcases hok c hft with ⟨b, hb, hbc⟩
    have hch : (match fsRead (mkdirParents fs (sourceFilePath note f.local_relative_path).dropLast)
        (sourceFilePath note f.local_relative_path) with
      | some b => decide (h b ≠ h c)
      | none => true) = false := by
      rw [fsRead_mkdirParents, hb]
      simp [hbc]
    simp only [hch]
    simp

theorem folderLoop_no_changes (h : Content → String) (note : NoteItem)
    (previous : List SyncedFileItem) :
    ∀ (dfiles : List DownloadedFolderFile) (fs : FS),
      (∀ f ∈ dfiles, ∀ c, f.temp = some c →
        ∃ b, fsRead fs (sourceFilePath note f.local_relative_path) = some b ∧ h b = h c) →
      (folderLoop h note previous fs dfiles).1.files = fs.files ∧
      (folderLoop h note previous fs dfiles).2.1 = 0 := by
  intro dfiles
  induction dfiles with
  | nil => intro fs _; exact ⟨rfl, rfl⟩
  | cons f rest ih =>
    intro fs hok
    rcases folderFileStep_files_eq_of_no_change h note previous fs f
      (hok f (List.mem_cons_self f rest)) with ⟨hfe, hc0⟩
    have hok' : ∀ g ∈ rest, ∀ c, g.temp = some c →
        ∃ b, fsRead (folderFileStep h note previous fs f).1
          (sourceFilePath note g.local_relative_path) = some b ∧ h b = h c := by
      intro g hg c hgc
      rcases hok g (List.mem_cons_of_mem f hg) c hgc with ⟨b, hb, hbc⟩
      exact ⟨b, by rw [fsRead_congr_files hfe]; exact hb, hbc⟩
    rcases ih (folderFileStep h note previous fs f).1 hok' with ⟨hfe2, hc2⟩
    constructor
    · show (folderLoop h note previous (folderFileStep h note previous fs f).1 rest).1.files = fs.files
      rw [hfe2, hfe]
    · show (folderFileStep h note previous fs f).2.1 +
        (folderLoop h note previous (folderFileStep h note previous fs f).1 rest).2.1 = 0
      rw [hc0, hc2]

theorem folderLoop_items_char (h : Content → String) (note : NoteItem)
    (previous : List SyncedFileItem) :
    ∀ (dfiles : List DownloadedFolderFile) (fs : FS),
      (dfiles.map (fun f => sourceFilePath note f.local_relative_path)).Nodup →
      (folderLoop h note previous fs dfiles).2.2.2.2 =
        dfiles.map (fun f => mkItem f (entrySha h note previous fs f)) := by
  intro dfiles
  induction dfiles with
  | nil => intro fs _; rfl
  | cons f rest ih =>
    intro fs hnd
    rw [List.map_cons, List.nodup_cons] at hnd
    rcases hnd with ⟨hne, hndr⟩
    show (folderFileStep h note previous fs f).2.2.2.2 ::
        (folderLoop h note previous (folderFileStep h note previous fs f).1 rest).2.2.2.2 =
      mkItem f (entrySha h note previous fs f) ::
        rest.map (fun g => mkItem g (entrySha h note previous fs g))
    rw [folderFileStep_item_char, ih _ hndr]
    congr 1
    apply List.map_congr_left
    intro g hg
    have hdg : sourceFilePath note f.local_relative_path ≠
        sourceFilePath note g.local_relative_path := by
      intro hcc
      exact hne (hcc ▸ List.mem_map_of_mem (fun x => sourceFilePath note x.local_relative_path) hg)
    congr 1
    apply entrySha_congr_read
    exact folderFileStep_fs_files_frame h note previous fs f hdg

theorem folderFileStep_dest_of_temp (h : Content → String) (note : NoteItem)
    (previous : List SyncedFileItem) (fs : FS) (f : DownloadedFolderFile)
    (c : Content) (hft : f.temp = some c) :
    ∃ b, fsRead (folderFileStep h note previous fs f).1
      (sourceFilePath note f.local_relative_path) = some b ∧ h b = h c := by
  unfold folderFileStep
  rw [hft]
  by_cases hch : (match fsRead (mkdirParents fs (sourceFilePath note f.local_relative_path).dropLast)
      (sourceFilePath note f.local_relative_path) with
    | some b => decide (h b ≠ h c)
    | none => true) = true
  · simp only [hch, if_true]
    exact ⟨c, fsRead_replaceFile_self _ _ c, rfl⟩
  · rw [Bool.not_eq_true] at hch
    rcases hfs : fsRead (mkdirParents fs (sourceFilePath note f.local_relative_path).dropLast)
        (sourceFilePath note f.local_relative_path) with - | b
    · rw [hfs] at hch
      exact absurd hch (by simp)
    · rw [hfs] at hch
      simp only [decide_eq_false_iff_not, Decidable.not_not] at hch
      simp only [hch]
      refine ⟨b, ?_, hch⟩
      have hchf : (match fsRead (mkdirParents fs (sourceFilePath note f.local_relative_path).dropLast)
          (sourceFilePath note f.local_relative_path) with
        | some b => decide (h b ≠ h c)
        | none => true) = false := by
        rw [hfs]
        simp [hch]
      simp only [hchf]
      simp only [Bool.false_eq_true, if_false]
      rw [fsRead_mkdirParents]
      rw [fsRead_mkdirParents] at hfs
      exact hfs

theorem folderLoop_dest_of_temp (h : Content → String) (note : NoteItem)
    (previous : List SyncedFileItem) :
    ∀ (dfiles : List DownloadedFolderFile) (fs : FS),
      (dfiles.map (fun f => sourceFilePath note f.local_relative_path)).Nodup →
      ∀ f ∈ dfiles, ∀ c, f.temp = some c →
        ∃ b, fsRead (folderLoop h note previous fs dfiles).1
          (sourceFilePath note f.local_relative_path) = some b ∧ h b = h c := by
  intro dfiles
  induction dfiles with
  | nil => intro fs _ f hf; exact absurd hf (List.not_mem_nil f)
  | cons f0 rest ih =>
    intro fs hnd f hf c hftc
    rw [List.map_cons, List.nodup_cons] at hnd
    rcases hnd with ⟨hne, hndr⟩
    rcases List.mem_cons.1 hf with hf0 | hfr
    · subst hf0
      rcases folderFileStep_dest_of_temp h note previous fs f c hftc with ⟨b, hb, hbc⟩
      refine ⟨b, ?_, hbc⟩
      show fsRead (folderLoop h note previous (folderFileStep h note previous fs f).1 rest).1 _ = some b
      rw [folderLoop_files_frame h note previous rest _ _ ?_]
      · exact hb
      · intro g hg _ hceq
        exact hne (hceq ▸ List.mem_map_of_mem (fun x => sourceFilePath note x.local_relative_path) hg)
    · exact ih (folderFileStep h note previous fs f0).1 hndr f hfr c hftc

/-! ### Removal pass lemmas -/

theorem fsRead_fsUnlink_none_mono {fs : FS} {p q : FPath}
    (hp : fsRead fs p = none) : fsRead (fsUnlink fs q) p = none := by
  by_cases hpq : p = q
  · subst hpq; exact fsRead_fsUnlink_self fs p
  · rw [fsRead_fsUnlink_of_ne fs hpq]; exact hp

theorem removalLoop_files_frame (note : NoteItem) (nextPaths : List String) :
    ∀ (olds : List SyncedFileItem) (fs : FS) (p : FPath),
      (∀ old ∈ olds, old.local_relative_path ∉ nextPaths →
        sourceFilePath note old.local_relative_path ≠ p) →
      fsRead (removalLoop note nextPaths fs olds).1 p = fsRead fs p := by
  intro olds
  induction olds with
  | nil => intro fs p _; rfl
  | cons o rest ih =>
    intro fs p hold
    by_cases hm : o.local_relative_path ∈ nextPaths
    · show fsRead (removalLoop note nextPaths fs (o :: rest)).1 p = fsRead fs p
      unfold removalLoop
      rw [if_pos hm]
      exact ih fs p (fun old hor => hold old (List.mem_cons_of_mem o hor))
    · unfold removalLoop
      rw [if_neg hm]
      by_cases he : fsExists fs (sourceFilePath note o.local_relative_path) = true
      · simp only [he, if_true]
        rw [ih _ p (fun old hor => hold old (List.mem_cons_of_mem o hor))]
        exact fsRead_fsUnlink_of_ne fs
          (fun hc => hold o (List.mem_cons_self o rest) hm hc.symm)
      · simp only [he]
        simp only [Bool.false_eq_true, if_false]
        exact ih fs p (fun old hor => hold old (List.mem_cons_of_mem o hor))

theorem removalLoop_dirs (note : NoteItem) (nextPaths : List String) :
    ∀ (olds : List SyncedFileItem) (fs : FS),
      (removalLoop note nextPaths fs olds).1.dirs = fs.dirs := by
  intro olds
  induction olds with
  | nil => intro fs; rfl
  | cons o rest ih =>
    intro fs
    unfold removalLoop
    by_cases hm : o.local_relative_path ∈ nextPaths
    · rw [if_pos hm]; exact ih fs
    · rw [if_neg hm]
      by_cases he : fsExists fs (sourceFilePath note o.local_relative_path) = true
      · simp only [he, if_true]
        exact ih _
      · simp only [he, Bool.false_eq_true, if_false]
        exact ih fs

theorem removalLoop_none_mono (note : NoteItem) (nextPaths : List String) :
    ∀ (olds : List SyncedFileItem) (fs : FS) (p : FPath),
      fsRead fs p = none →
      fsRead (removalLoop note nextPaths fs olds).1 p = none := by
  intro olds
  induction olds with
  | nil => intro fs p hp; exact hp
  | cons o rest ih =>
    intro fs p hp
    unfold removalLoop
    by_cases hm : o.local_relative_path ∈ nextPaths
    · rw [if_pos hm]; exact ih fs p hp
    · rw [if_neg hm]
      by_cases he : fsExists fs (sourceFilePath note o.local_relative_path) = true
      · simp only [he, if_true]
        exact ih _ p (fsRead_fsUnlink_none_mono hp)
      · simp only [he, Bool.false_eq_true, if_false]
        exact ih fs p hp

theorem removalLoop_stale_absent (note : NoteItem) (nextPaths : List String) :
    ∀ (olds : List SyncedFileItem) (fs : FS) (old : SyncedFileItem),
      old ∈ olds → old.local_relative_path ∉ nextPaths →
      fsRead (removalLoop note nextPaths fs olds).1
        (sourceFilePath note old.local_relative_path) = none := by
  intro olds
  induction olds with
  | nil => intro fs old hm; exact absurd hm (List.not_mem_nil old)
  | cons o rest ih =>
    intro fs old hm hstale
    rcases List.mem_cons.1 hm with heq | hmr
    · subst heq
      unfold removalLoop
      rw [if_neg hstale]
      by_cases he : fsExists fs (sourceFilePath note old.local_relative_path) = true
      · simp only [he, if_true]
        exact removalLoop_none_mono note nextPaths rest _ _
          (fsRead_fsUnlink_self fs _)
      · simp only [he, Bool.false_eq_true, if_false]
        apply removalLoop_none_mono
        unfold fsExists at he
        rcases hfs : fsRead fs (sourceFilePath note old.local_relative_path) with - | b
        · rfl
        · rw [hfs] at he
          exact absurd he (by simp)
    · unfold removalLoop
      by_cases hm0 : o.local_relative_path ∈ nextPaths
      · rw [if_pos hm0]; exact ih fs old hmr hstale
      · rw [if_neg hm0]
        by_cases he : fsExists fs (sourceFilePath note o.local_relative_path) = true
        · simp only [he, if_true]
          exact ih _ old hmr hstale
        · simp only [he, Bool.false_eq_true, if_false]
          exact ih fs old hmr hstale

theorem removalLoop_count (note : NoteItem) (nextPaths : List String) :
    ∀ (olds : List SyncedFileItem) (fs : FS),
      (olds.map (fun o => sourceFilePath note o.local_relative_path)).Nodup →
      (removalLoop note nextPaths fs olds).2 =
        (olds.filter (fun o => decide (o.local_relative_path ∉ nextPaths) &&
          fsExists fs (sourceFilePath note o.local_relative_path))).length := by
  intro olds
  induction olds with
  | nil => intro fs _; rfl
  | cons o rest ih =>
    intro fs hnd
    rw [List.map_cons, List.nodup_cons] at hnd
    rcases hnd with ⟨hne, hndr⟩
    unfold removalLoop
    by_cases hm : o.local_relative_path ∈ nextPaths
    · rw [if_pos hm]
      have hdf : decide (o.local_relative_path ∉ nextPaths) = false := by
        simp [hm]
      rw [List.filter_cons, hdf, Bool.false_and]
      rw [if_neg (by simp : ¬(false = true))]
      exact ih fs hndr
    · rw [if_neg hm]
      by_cases he : fsExists fs (sourceFilePath note o.local_relative_path) = true
      · simp only [he, if_true]
        rw [List.filter_cons]
        rw [if_pos (by simp [hm, he])]
        rw [List.length_cons]
        congr 1
        rw [ih _ hndr]
        congr 1
        apply List.filter_congr
        intro x hx
        have hxo : sourceFilePath note x.local_relative_path ≠
            sourceFilePath note o.local_relative_path := by
          intro hc
          exact hne (hc ▸ List.mem_map_of_mem
            (fun y => sourceFilePath note y.local_relative_path) hx)
        congr 1
        unfold fsExists
        rw [fsRead_fsUnlink_of_ne fs hxo]
      · simp only [he, Bool.false_eq_true, if_false]
        rw [List.filter_cons]
        rw [if_neg (by simp [he])]
        exact ih fs hndr

theorem removalLoop_zero_of_all_mem (note : NoteItem) (nextPaths : List String) :
    ∀ (olds : List SyncedFileItem) (fs : FS),
      (∀ o ∈ olds, o.local_relative_path ∈ nextPaths) →
      removalLoop note nextPaths fs olds = (fs, 0) := by
  intro olds
  induction olds with
  | nil => intro fs _; rfl
  | cons o rest ih =>
    intro fs hall
    unfold removalLoop
    rw [if_pos (hall o (List.mem_cons_self o rest))]
    exact ih fs (fun x hx => hall x (List.mem_cons_of_mem o hx))

/-! ### Cleanup pass lemmas -/

theorem hasChild_eq_true_iff (fs : FS) (d : FPath) :
    hasChild fs d = true ↔
      (∃ e ∈ fs.files, e.1 ≠ [] ∧ e.1.dropLast = d) ∨
      (∃ x ∈ fs.dirs, x ≠ [] ∧ x.dropLast = d) := by
  simp [hasChild, List.any_eq_true, decide_eq_true_eq]

theorem cleanupLoop_files : ∀ (L : List FPath) (fs : FS),
    (cleanupLoop fs L).files = fs.files := by
  intro L
  induction L with
  | nil => intro fs; rfl
  | cons d rest ih =>
    intro fs
    show (cleanupLoop (if hasChild fs d then fs else removeDir fs d) rest).files = fs.files
    rw [ih]
    by_cases hc : hasChild fs d = true
    · rw [if_pos hc]
    · rw [if_neg hc]; rfl

theorem cleanupLoop_dirs_sub : ∀ (L : List FPath) (fs : FS) (d : FPath),
    d ∈ (cleanupLoop fs L).dirs → d ∈ fs.dirs := by
  intro L
  induction L with
  | nil => intro fs d hd; exact hd
  | cons d0 rest ih =>
    intro fs d hd
    have hd1 : d ∈ (if hasChild fs d0 then fs else removeDir fs d0).dirs := ih _ d hd
    by_cases hc : hasChild fs d0 = true
    · rw [if_pos hc] at hd1; exact hd1
    · rw [if_neg hc] at hd1
      exact (List.mem_filter.1 hd1).1

theorem cleanupLoop_dirs_keep : ∀ (L : List FPath) (fs : FS) (d : FPath),
    d ∈ fs.dirs → d ∉ L → d ∈ (cleanupLoop fs L).dirs := by
  intro L
  induction L with
  | nil => intro fs d hd _; exact hd
  | cons d0 rest ih =>
    intro fs d hd hnL
    have hdne : d ≠ d0 := fun hc => hnL (hc ▸ List.mem_cons_self d0 rest)
    apply ih _ d ?_ (fun hc => hnL (List.mem_cons_of_mem d0 hc))
    by_cases hc : hasChild fs d0 = true
    · rw [if_pos hc]; exact hd
    · rw [if_neg hc]
      exact List.mem_filter.2 ⟨hd, by simp [hdne]⟩

theorem cleanupLoop_no_empty : ∀ (L : List FPath) (fs : FS),
    List.Pairwise (fun a b => b.length ≤ a.length) L →
    ∀ d ∈ L, d ∈ (cleanupLoop fs L).dirs → hasChild (cleanupLoop fs L) d = true := by
  intro L
  induction L with
  | nil => intro fs _ d hd; exact absurd hd (List.not_mem_nil d)
  | cons d0 rest ih =>
    intro fs hpw d hd hdm
    rw [List.pairwise_cons] at hpw
    rcases hpw with ⟨hall, hpwr⟩
    rcases List.mem_cons.1 hd with heq | hdr
    · subst heq
      by_cases hdin : d ∈ rest
      · exact ih _ hpwr d hdin hdm
      · by_cases hhc : hasChild fs d = true
        · have hrw : (if hasChild fs d then fs else removeDir fs d) = fs := if_pos hhc
          show hasChild (cleanupLoop (if hasChild fs d then fs else removeDir fs d) rest) d = true
          rw [hrw]
          rw [hasChild_eq_true_iff] at hhc ⊢
          rcases hhc with ⟨e, he, hene, hedrop⟩ | ⟨x, hx, hxne, hxdrop⟩
          · left
            refine ⟨e, ?_, hene, hedrop⟩
            rw [cleanupLoop_files]
            exact he
          · right
            have hxlen : x.length = d.length + 1 := by
              have hlen : x.dropLast.length = x.length - 1 := List.length_dropLast x
              rw [hxdrop] at hlen
              have hpos : 0 < x.length := List.length_pos.2 hxne
              omega
            have hxnr : x ∉ rest := by
              intro hxr
              have := hall x hxr
              omega
            exact ⟨x, cleanupLoop_dirs_keep rest fs x hx hxnr, hxne, hxdrop⟩
        · exfalso
          have hrw : (if hasChild fs d then fs else removeDir fs d) = removeDir fs d :=
            if_neg hhc
          have hdin1 : d ∈ (if hasChild fs d then fs else removeDir fs d).dirs :=
            cleanupLoop_dirs_sub rest _ d hdm
          rw [hrw] at hdin1
          have := (List.mem_filter.1 hdin1).2
          simp at this
    · exact ih _ hpwr d hdr hdm

theorem cleanupEmptyDirectories_files (fs : FS) (root : FPath) :
    (cleanupEmptyDirectories fs root).files = fs.files := by
  unfold cleanupEmptyDirectories
  by_cases hr : root ∈ fs.dirs
  · rw [if_pos hr, cleanupLoop_files]
  · rw [if_neg hr]

theorem cleanupEmptyDirectories_no_empty (fs : FS) (root : FPath)
    (hroot : root ∈ fs.dirs) :
    ∀ d ∈ (cleanupEmptyDirectories fs root).dirs, root <+: d → d ≠ root →
      hasChild (cleanupEmptyDirectories fs root) d = true := by
  intro d hdm hpre hne
  unfold cleanupEmptyDirectories at hdm ⊢
  rw [if_pos hroot] at hdm ⊢
  have hd_in_fs : d ∈ fs.dirs := cleanupLoop_dirs_sub _ _ d hdm
  have hd_in_filter : d ∈ fs.dirs.filter (fun x => decide (root <+: x ∧ x ≠ root)) :=
    List.mem_filter.2 ⟨hd_in_fs, by simp [hpre, hne]⟩
  have hd_in_L : d ∈ (fs.dirs.filter (fun x => decide (root <+: x ∧ x ≠ root))).mergeSort
      (fun a b => decide (b.length ≤ a.length)) :=
    List.mem_mergeSort.2 hd_in_filter
  have hpw : List.Pairwise (fun a b : FPath => b.length ≤ a.length)
      ((fs.dirs.filter (fun x => decide (root <+: x ∧ x ≠ root))).mergeSort
        (fun a b => decide (b.length ≤ a.length))) := by
    have hsorted := @List.sorted_mergeSort FPath
      (fun a b : FPath => decide (b.length ≤ a.length))
      (fun a b c hab hbc => by
        simp only [decide_eq_true_eq] at hab hbc ⊢
        omega)
      (fun a b => by
        simp only [Bool.or_eq_true, decide_eq_true_eq]
        omega)
      (fs.dirs.filter (fun x => decide (root <+: x ∧ x ≠ root)))
    exact hsorted.imp (fun hab => by
      simp only [decide_eq_true_eq] at hab
      exact hab)
  exact cleanupLoop_no_empty _ fs hpw d hd_in_L hdm

/-! ### dictGet and sorting lemmas -/

theorem dictGet_go_keep (key : String) :
    ∀ (items : List SyncedFileItem) (acc : Option SyncedFileItem),
      (∀ x ∈ items, x.local_relative_path ≠ key) →
      items.foldl (fun acc x => if x.local_relative_path = key then some x else acc) acc = acc := by
  intro items
  induction items with
  | nil => intro acc _; rfl
  | cons y ys ih =>
    intro acc hall
    show ys.foldl _ (if y.local_relative_path = key then some y else acc) = acc
    rw [if_neg (hall y (List.mem_cons_self y ys))]
    exact ih acc (fun x hx => hall x (List.mem_cons_of_mem y hx))

theorem dictGet_eq_none_of_not_mem {items : List SyncedFileItem} {key : String}
    (hall : ∀ x ∈ items, x.local_relative_path ≠ key) :
    dictGet items key = none :=
  dictGet_go_keep key items none hall

theorem dictGet_eq_of_mem_nodup :
    ∀ {items : List SyncedFileItem} {it : SyncedFileItem},
      (items.map (fun x => x.local_relative_path)).Nodup →
      it ∈ items →
      dictGet items it.local_relative_path = some it := by
  intro items
  induction items with
  | nil => intro it _ hm; exact absurd hm (List.not_mem_nil it)
  | cons y ys ih =>
    intro it hnd hm
    rw [List.map_cons, List.nodup_cons] at hnd
    rcases hnd with ⟨hny, hndys⟩
    rcases List.mem_cons.1 hm with heq | hmys
    · subst heq
      show ys.foldl _ (if it.local_relative_path = it.local_relative_path then some it else none) = some it
      rw [if_pos rfl]
      apply dictGet_go_keep
      intro x hx hc
      exact hny (hc ▸ List.mem_map_of_mem (fun z => z.local_relative_path) hx)
    · have hne : y.local_relative_path ≠ it.local_relative_path := by
        intro hc
        exact hny (hc ▸ List.mem_map_of_mem (fun z => z.local_relative_path) hmys)
      show ys.foldl _ (if y.local_relative_path = it.local_relative_path then some y else none) = some it
      rw [if_neg hne]
      exact ih hndys hmys

theorem dictGet_perm {l l' : List SyncedFileItem} (hperm : l.Perm l')
    (hnd : (l.map (fun x => x.local_relative_path)).Nodup) (key : String) :
    dictGet l key = dictGet l' key := by
  by_cases hex : ∃ it ∈ l, it.local_relative_path = key
  · rcases hex with ⟨it, hm, hk⟩
    subst hk
    rw [dictGet_eq_of_mem_nodup hnd hm,
        dictGet_eq_of_mem_nodup ((hperm.map (fun x => x.local_relative_path)).nodup_iff.1 hnd)
          (hperm.mem_iff.1 hm)]
  · push_neg at hex
    rw [dictGet_eq_none_of_not_mem hex,
        dictGet_eq_none_of_not_mem (fun x hx => hex x (hperm.mem_iff.2 hx))]

theorem sortItems_perm (items : List SyncedFileItem) : (sortItems items).Perm items :=
  List.mergeSort_perm items _

/-! ### Whole-run read lemmas for `_apply_folder_sync` -/

theorem sourceFilePath_ne_singleFilePath (n n' : NoteItem) (lrp : String) :
    sourceFilePath n lrp ≠ singleFilePath n' := by
  unfold sourceFilePath sourceDir singleFilePath
  intro hc
  have := List.head_eq_of_cons_eq hc
  simp at this

theorem applyFolderSync_removed_def (h : Content → String) (now : String)
    (note : NoteItem) (fs : FS) (dfiles : List DownloadedFolderFile) :
    (applyFolderSync h now note fs dfiles).removed =
      (removalLoop note
        (((folderLoop h note note.folder_files
            (fsUnlink (mkdirParents fs (sourceDir note)) (singleFilePath note)) dfiles).2.2.2.2).map
          (fun x => x.local_relative_path))
        (folderLoop h note note.folder_files
            (fsUnlink (mkdirParents fs (sourceDir note)) (singleFilePath note)) dfiles).1
        note.folder_files).2 := rfl

theorem applyFolderSync_fs_def (h : Content → String) (now : String)
    (note : NoteItem) (fs : FS) (dfiles : List DownloadedFolderFile) :
    (applyFolderSync h now note fs dfiles).fs =
      cleanupEmptyDirectories
        (removalLoop note
          (((folderLoop h note note.folder_files
              (fsUnlink (mkdirParents fs (sourceDir note)) (singleFilePath note)) dfiles).2.2.2.2).map
            (fun x => x.local_relative_path))
          (folderLoop h note note.folder_files
              (fsUnlink (mkdirParents fs (sourceDir note)) (singleFilePath note)) dfiles).1
          note.folder_files).1
        (sourceDir note) := rfl

theorem applyFolderSync_fs_read (h : Content → String) (now : String)
    (note : NoteItem) (fs : FS) (dfiles : List DownloadedFolderFile) (p : FPath)
    (Hst : ∀ old ∈ note.folder_files,
      old.local_relative_path ∉ dfiles.map (fun f => f.local_relative_path) →
      sourceFilePath note old.local_relative_path ≠ p) :
    fsRead (applyFolderSync h now note fs dfiles).fs p =
      fsRead (folderLoop h note note.folder_files
        (fsUnlink (mkdirParents fs (sourceDir note)) (singleFilePath note)) dfiles).1 p := by
  rw [applyFolderSync_fs_def]
  rw [fsRead_congr_files (cleanupEmptyDirectories_files _ _) p]
  apply removalLoop_files_frame
  intro old hom hstale
  apply Hst old hom
  rw [folderLoop_items_lrp] at hstale
  exact hstale

theorem applyFolderSync_dest_temp (h : Content → String) (now : String)
    (note : NoteItem) (fs : FS) (dfiles : List DownloadedFolderFile)
    (H2 : (dfiles.map (fun f => sourceFilePath note f.local_relative_path)).Nodup)
    (H3 : ∀ old ∈ note.folder_files,
      old.local_relative_path ∉ dfiles.map (fun f => f.local_relative_path) →
      ∀ g ∈ dfiles, sourceFilePath note old.local_relative_path ≠
        sourceFilePath note g.local_relative_path) :
    ∀ f ∈ dfiles, ∀ c, f.temp = some c →
      ∃ b, fsRead (applyFolderSync h now note fs dfiles).fs
        (sourceFilePath note f.local_relative_path) = some b ∧ h b = h c := by
  intro f hf c hft
  rw [applyFolderSync_fs_read h now note fs dfiles _
    (fun old hom hstale => H3 old hom hstale f hf)]
  exact folderLoop_dest_of_temp h note note.folder_files dfiles _ H2 f hf c hft

theorem applyFolderSync_dest_no_temp (h : Content → String) (now : String)
    (note : NoteItem) (fs : FS) (dfiles : List DownloadedFolderFile)
    (H2 : (dfiles.map (fun f => sourceFilePath note f.local_relative_path)).Nodup)
    (H3 : ∀ old ∈ note.folder_files,
      old.local_relative_path ∉ dfiles.map (fun f => f.local_relative_path) →
      ∀ g ∈ dfiles, sourceFilePath note old.local_relative_path ≠
        sourceFilePath note g.local_relative_path) :
    ∀ f ∈ dfiles, f.temp = none →
      fsRead (applyFolderSync h now note fs dfiles).fs
          (sourceFilePath note f.local_relative_path) =
        fsRead (fsUnlink (mkdirParents fs (sourceDir note)) (singleFilePath note))
          (sourceFilePath note f.local_relative_path) := by
  intro f hf hft
  rw [applyFolderSync_fs_read h now note fs dfiles _
    (fun old hom hstale => H3 old hom hstale f hf)]
  apply folderLoop_files_frame
  intro g hg hgt hceq
  have hgf : g ≠ f := by
    intro hc
    subst hc
    exact hgt hft
  exact hgf (List.inj_on_of_nodup_map H2 hg hf hceq)

/-! ### Claim C1 -/

/-- C1: folder reconciliation is idempotent.  The hypotheses state the
claim's side conditions exactly: the entries carry the same
(pairwise-distinct) local relative paths and hence pairwise-distinct
destinations, and records dropped from the listing do not collide with any
entry's destination.  Running `_apply_folder_sync` a second time with the
same list (each staged temp file hashing equal to the bytes now at its
destination, which run one established) yields `changed = 0`,
`removed = 0`, and an unchanged `folder_files` set. -/
theorem folder_reconciliation_idempotent (h : Content → String) (now now2 : String)
    (note : NoteItem) (fs : FS) (dfiles : List DownloadedFolderFile)
    (H1 : (dfiles.map (fun f => f.local_relative_path)).Nodup)
    (H2 : (dfiles.map (fun f => sourceFilePath note f.local_relative_path)).Nodup)
    (H3 : ∀ old ∈ note.folder_files,
      old.local_relative_path ∉ dfiles.map (fun f => f.local_relative_path) →
      ∀ g ∈ dfiles, sourceFilePath note old.local_relative_path ≠
        sourceFilePath note g.local_relative_path) :
    (applyFolderSync h now2 (applyFolderSync h now note fs dfiles).note
      (applyFolderSync h now note fs dfiles).fs dfiles).changed = 0 ∧
    (applyFolderSync h now2 (applyFolderSync h now note fs dfiles).note
      (applyFolderSync h now note fs dfiles).fs dfiles).removed = 0 ∧
    (applyFolderSync h now2 (applyFolderSync h now note fs dfiles).note
      (applyFolderSync h now note fs dfiles).fs dfiles).note.folder_files =
      (applyFolderSync h now note fs dfiles).note.folder_files := by
  -- the staged hash of every temp entry matches its destination after run one
  have Hok : ∀ f ∈ dfiles, ∀ c, f.temp = some c →
      ∃ b, fsRead (fsUnlink (mkdirParents (applyFolderSync h now note fs dfiles).fs
          (sourceDir (applyFolderSync h now note fs dfiles).note))
          (singleFilePath (applyFolderSync h now note fs dfiles).note))
        (sourceFilePath (applyFolderSync h now note fs dfiles).note f.local_relative_path) =
          some b ∧ h b = h c := by
    intro f hf c hft
    rcases applyFolderSync_dest_temp h now note fs dfiles H2 H3 f hf c hft with ⟨b, hb, hbc⟩
    refine ⟨b, ?_, hbc⟩
    show fsRead (fsUnlink (mkdirParents (applyFolderSync h now note fs dfiles).fs
        (sourceDir note)) (singleFilePath note)) (sourceFilePath note f.local_relative_path) = some b
    rw [fsRead_fsUnlink_of_ne _ (sourceFilePath_ne_singleFilePath note note f.local_relative_path),
      fsRead_mkdirParents]
    exact hb
  refine ⟨?_, ?_, ?_⟩
  · -- changed = 0 on the second run
    rw [applyFolderSync_changed_def]
    exact (folderLoop_no_changes h (applyFolderSync h now note fs dfiles).note
      (applyFolderSync h now note fs dfiles).note.folder_files dfiles _ Hok).2
  · -- removed = 0 on the second run
    rw [applyFolderSync_removed_def]
    rw [removalLoop_zero_of_all_mem]
    · intro o ho
      rw [folderLoop_items_lrp]
      have ho1 : o ∈ sortItems ((folderLoop h note note.folder_files
          (fsUnlink (mkdirParents fs (sourceDir note)) (singleFilePath note)) dfiles).2.2.2.2) := by
        rw [← applyFolderSync_folder_files_def h now note fs dfiles]
        exact ho
      have ho2 := (sortItems_perm _).subset ho1
      have := List.mem_map_of_mem (fun x : SyncedFileItem => x.local_relative_path) ho2
      rw [folderLoop_items_lrp] at this
      exact this
  · -- folder_files unchanged
    rw [applyFolderSync_folder_files_def, applyFolderSync_folder_files_def]
    congr 1
    have hnd2 : (dfiles.map (fun f => sourceFilePath
        (applyFolderSync h now note fs dfiles).note f.local_relative_path)).Nodup := H2
    rw [folderLoop_items_char h (applyFolderSync h now note fs dfiles).note _ dfiles _ hnd2,
      folderLoop_items_char h note note.folder_files dfiles _ H2]
    apply List.map_congr_left
    intro f hf
    have hgen : ∀ (prev : List SyncedFileItem) (fsX : FS),
        entrySha h (applyFolderSync h now note fs dfiles).note prev fsX f =
          entrySha h note prev fsX f := fun _ _ => rfl
    rw [hgen]
    rw [show sourceDir (applyFolderSync h now note fs dfiles).note = sourceDir note from rfl,
      show singleFilePath (applyFolderSync h now note fs dfiles).note = singleFilePath note from rfl]
    congr 1
    cases hft : f.temp with
    | some c =>
      unfold entrySha
      rw [hft]
    | none =>
      have hAB : fsRead (fsUnlink (mkdirParents (applyFolderSync h now note fs dfiles).fs
          (sourceDir note)) (singleFilePath note))
          (sourceFilePath note f.local_relative_path) =
        fsRead (fsUnlink (mkdirParents fs (sourceDir note)) (singleFilePath note))
          (sourceFilePath note f.local_relative_path) := by
        rw [fsRead_fsUnlink_of_ne _ (sourceFilePath_ne_singleFilePath note note f.local_relative_path),
          fsRead_mkdirParents]
        exact applyFolderSync_dest_no_temp h now note fs dfiles H2 H3 f hf hft
      rcases hv : fsRead (fsUnlink (mkdirParents fs (sourceDir note)) (singleFilePath note))
          (sourceFilePath note f.local_relative_path) with - | b
      · -- destination absent: the carried-forward hash is the run-one record's hash
        have hnd1 : ((dfiles.map (fun g => mkItem g (entrySha h note note.folder_files
            (fsUnlink (mkdirParents fs (sourceDir note)) (singleFilePath note)) g))).map
            (fun x => x.local_relative_path)).Nodup := by
          rw [List.map_map]
          exact H1
        have hmem1 : mkItem f (entrySha h note note.folder_files
            (fsUnlink (mkdirParents fs (sourceDir note)) (singleFilePath note)) f) ∈
            dfiles.map (fun g => mkItem g (entrySha h note note.folder_files
              (fsUnlink (mkdirParents fs (sourceDir note)) (singleFilePath note)) g)) :=
          List.mem_map_of_mem _ hf
        have hdg : dictGet (sortItems (dfiles.map (fun g => mkItem g (entrySha h note
            note.folder_files (fsUnlink (mkdirParents fs (sourceDir note))
              (singleFilePath note)) g)))) f.local_relative_path =
            some (mkItem f (entrySha h note note.folder_files
              (fsUnlink (mkdirParents fs (sourceDir note)) (singleFilePath note)) f)) := by
          rw [dictGet_perm (sortItems_perm _)
            (((sortItems_perm _).map (fun x : SyncedFileItem => x.local_relative_path)).nodup_iff.2 hnd1)]
          exact dictGet_eq_of_mem_nodup hnd1 hmem1
        have e1 : entrySha h note (sortItems (dfiles.map (fun g => mkItem g (entrySha h note
            note.folder_files (fsUnlink (mkdirParents fs (sourceDir note))
              (singleFilePath note)) g))))
            (fsUnlink (mkdirParents (applyFolderSync h now note fs dfiles).fs
              (sourceDir note)) (singleFilePath note)) f =
            match dictGet (sortItems (dfiles.map (fun g => mkItem g (entrySha h note
              note.folder_files (fsUnlink (mkdirParents fs (sourceDir note))
                (singleFilePath note)) g)))) f.local_relative_path with
            | some it => it.sha256
            | none => "" := by
          unfold entrySha
          rw [hft, hAB, hv]
        rw [e1, hdg]
        rfl
      · have e1 : entrySha h note (sortItems (dfiles.map (fun g => mkItem g (entrySha h note
            note.folder_files (fsUnlink (mkdirParents fs (sourceDir note))
              (singleFilePath note)) g))))
            (fsUnlink (mkdirParents (applyFolderSync h now note fs dfiles).fs
              (sourceDir note)) (singleFilePath note)) f = h b := by
          unfold entrySha
          rw [hft, hAB, hv]
        have e2 : entrySha h note note.folder_files
            (fsUnlink (mkdirParents fs (sourceDir note)) (singleFilePath note)) f = h b := by
          unfold entrySha
          rw [hft, hv]
        rw [e1, e2]

/-- Witness for C1: one fetched file over an empty store; the second run
reports no changes and no removals and keeps `folder_files`. -/
theorem folder_reconciliation_idempotent_witness :
    (applyFolderSync (fun b => toString b) "2024-01-02T00:00:00Z"
      (applyFolderSync (fun b => toString b) "2024-01-01T00:00:00Z"
        { id := "n1", file_name := "f1.pdf", sha256 := none, last_checked_at := none,
          last_updated_at := none, status := "Never synced", last_error := none,
          source_type := none, folder_files := [] }
        { files := [], dirs := [] }
        [{ remote_path := "/r/a.txt", local_relative_path := "a.txt", temp := some [1],
           modified_at := none, size_bytes := none, mime_type := none,
           was_skipped := false, download_error := none }]).note
      (applyFolderSync (fun b => toString b) "2024-01-01T00:00:00Z"
        { id := "n1", file_name := "f1.pdf", sha256 := none, last_checked_at := none,
          last_updated_at := none, status := "Never synced", last_error := none,
          source_type := none, folder_files := [] }
        { files := [], dirs := [] }
        [{ remote_path := "/r/a.txt", local_relative_path := "a.txt", temp := some [1],
           modified_at := none, size_bytes := none, mime_type := none,
           was_skipped := false, download_error := none }]).fs
      [{ remote_path := "/r/a.txt", local_relative_path := "a.txt", temp := some [1],
         modified_at := none, size_bytes := none, mime_type := none,
         was_skipped := false, download_error := none }]).changed = 0 ∧
    (applyFolderSync (fun b => toString b) "2024-01-02T00:00:00Z"
      (applyFolderSync (fun b => toString b) "2024-01-01T00:00:00Z"
        { id := "n1", file_name := "f1.pdf", sha256 := none, last_checked_at := none,
          last_updated_at := none, status := "Never synced", last_error := none,
          source_type := none, folder_files := [] }
        { files := [], dirs := [] }
        [{ remote_path := "/r/a.txt", local_relative_path := "a.txt", temp := some [1],
           modified_at := none, size_bytes := none, mime_type := none,
           was_skipped := false, download_error := none }]).note
      (applyFolderSync (fun b => toString b) "2024-01-01T00:00:00Z"
        { id := "n1", file_name := "f1.pdf", sha256 := none, last_checked_at := none,
          last_updated_at := none, status := "Never synced", last_error := none,
          source_type := none, folder_files := [] }
        { files := [], dirs := [] }
        [{ remote_path := "/r/a.txt", local_relative_path := "a.txt", temp := some [1],
           modified_at := none, size_bytes := none, mime_type := none,
           was_skipped := false, download_error := none }]).fs
      [{ remote_path := "/r/a.txt", local_relative_path := "a.txt", temp := some [1],
         modified_at := none, size_bytes := none, mime_type := none,
         was_skipped := false, download_error := none }]).removed = 0 ∧
    (applyFolderSync (fun b => toString b) "2024-01-02T00:00:00Z"
      (applyFolderSync (fun b => toString b) "2024-01-01T00:00:00Z"
        { id := "n1", file_name := "f1.pdf", sha256 := none, last_checked_at := none,
          last_updated_at := none, status := "Never synced", last_error := none,
          source_type := none, folder_files := [] }
        { files := [], dirs := [] }
        [{ remote_path := "/r/a.txt", local_relative_path := "a.txt", temp := some [1],
           modified_at := none, size_bytes := none, mime_type := none,
           was_skipped := false, download_error := none }]).note
      (applyFolderSync (fun b => toString b) "2024-01-01T00:00:00Z"
        { id := "n1", file_name := "f1.pdf", sha256 := none, last_checked_at := none,
          last_updated_at := none, status := "Never synced", last_error := none,
          source_type := none, folder_files := [] }
        { files := [], dirs := [] }
        [{ remote_path := "/r/a.txt", local_relative_path := "a.txt", temp := some [1],
           modified_at := none, size_bytes := none, mime_type := none,
           was_skipped := false, download_error := none }]).fs
      [{ remote_path := "/r/a.txt", local_relative_path := "a.txt", temp := some [1],
         modified_at := none, size_bytes := none, mime_type := none,
         was_skipped := false, download_error := none }]).note.folder_files =
    (applyFolderSync (fun b => toString b) "2024-01-01T00:00:00Z"
      { id := "n1", file_name := "f1.pdf", sha256 := none, last_checked_at := none,
        last_updated_at := none, status := "Never synced", last_error := none,
        source_type := none, folder_files := [] }
      { files := [], dirs := [] }
      [{ remote_path := "/r/a.txt", local_relative_path := "a.txt", temp := some [1],
         modified_at := none, size_bytes := none, mime_type := none,
         was_skipped := false, download_error := none }]).note.folder_files :=
  folder_reconciliation_idempotent (fun b => toString b)
    "2024-01-01T00:00:00Z" "2024-01-02T00:00:00Z"
    { id := "n1", file_name := "f1.pdf", sha256 := none, last_checked_at := none,
      last_updated_at := none, status := "Never synced", last_error := none,
      source_type := none, folder_files := [] }
    { files := [], dirs := [] }
    [{ remote_path := "/r/a.txt", local_relative_path := "a.txt", temp := some [1],
       modified_at := none, size_bytes := none, mime_type := none,
       was_skipped := false, download_error := none }]
    (by decide) (by decide)
    (fun old hold => absurd hold (List.not_mem_nil old))

/-! ### Claim C3 -/

theorem self_mem_mkdirParents (fs : FS) (p : FPath) (hp : p ≠ []) :
    p ∈ (mkdirParents fs p).dirs := by
  simp only [mkdirParents, List.mem_append]
  by_cases hin : p ∈ fs.dirs
  · exact Or.inl hin
  · right
    apply List.mem_filter.2
    refine ⟨?_, by simp [hin]⟩
    unfold pathPrefixes
    have hlen : 0 < p.length := List.length_pos.2 hp
    have : p.length - 1 ∈ List.range p.length := List.mem_range.2 (by omega)
    have htake := List.mem_map_of_mem (fun i => p.take (i + 1)) this
    simpa [show p.length - 1 + 1 = p.length by omega] using htake

/-- C3: every previously-recorded file absent from the new listing is
deleted from disk and counted as removed (when its file was present),
disappears from `folder_files`, and afterwards no empty directory remains
strictly below the target's source root.  The hypotheses record that
previously-recorded destinations are pairwise distinct and that stale
records do not collide with any new entry's destination. -/
theorem folder_removal_and_pruning (h : Content → String) (now : String)
    (note : NoteItem) (fs : FS) (dfiles : List DownloadedFolderFile)
    (Hpd : (note.folder_files.map (fun o => sourceFilePath note o.local_relative_path)).Nodup)
    (Hsep : ∀ old ∈ note.folder_files,
      old.local_relative_path ∉ dfiles.map (fun f => f.local_relative_path) →
      ∀ g ∈ dfiles, sourceFilePath note old.local_relative_path ≠
        sourceFilePath note g.local_relative_path) :
    (∀ old ∈ note.folder_files,
      old.local_relative_path ∉ dfiles.map (fun f => f.local_relative_path) →
      fsRead (applyFolderSync h now note fs dfiles).fs
        (sourceFilePath note old.local_relative_path) = none ∧
      old.local_relative_path ∉
        ((applyFolderSync h now note fs dfiles).note.folder_files.map
          (fun x => x.local_relative_path))) ∧
    (applyFolderSync h now note fs dfiles).removed =
      (note.folder_files.filter (fun old =>
        decide (old.local_relative_path ∉ dfiles.map (fun f => f.local_relative_path)) &&
        fsExists fs (sourceFilePath note old.local_relative_path))).length ∧
    (∀ d ∈ (applyFolderSync h now note fs dfiles).fs.dirs,
      sourceDir note <+: d → d ≠ sourceDir note →
      hasChild (applyFolderSync h now note fs dfiles).fs d = true) := by
  refine ⟨?_, ?_, ?_⟩
  · intro old hold hstale
    constructor
    · rw [applyFolderSync_fs_def, fsRead_congr_files (cleanupEmptyDirectories_files _ _)]
      apply removalLoop_stale_absent note _ note.folder_files _ old hold
      rw [folderLoop_items_lrp]
      exact hstale
    · rw [applyFolderSync_folder_files_def]
      intro hc
      rw [((sortItems_perm _).map (fun x : SyncedFileItem => x.local_relative_path)).mem_iff] at hc
      rw [folderLoop_items_lrp] at hc
      exact hstale hc
  · rw [applyFolderSync_removed_def, removalLoop_count note _ note.folder_files _ Hpd]
    congr 1
    apply List.filter_congr
    intro o ho
    rw [folderLoop_items_lrp]
    by_cases hst : o.local_relative_path ∈ dfiles.map (fun f => f.local_relative_path)
    · have hd : decide (o.local_relative_path ∉
          dfiles.map (fun f => f.local_relative_path)) = false := by simp [hst]
      rw [hd, Bool.false_and, Bool.false_and]
    · congr 1
      unfold fsExists
      congr 1
      rw [folderLoop_files_frame h note note.folder_files dfiles _ _ ?_]
      · rw [fsRead_fsUnlink_of_ne _ (sourceFilePath_ne_singleFilePath note note _),
          fsRead_mkdirParents]
      · intro g hg _ hceq
        exact Hsep o ho hst g hg hceq.symm
  · rw [applyFolderSync_fs_def]
    apply cleanupEmptyDirectories_no_empty
    rw [removalLoop_dirs]
    apply folderLoop_dirs_mono
    show sourceDir note ∈ (mkdirParents fs (sourceDir note)).dirs
    exact self_mem_mkdirParents fs (sourceDir note) (by simp [sourceDir])

/-- Witness for C3: a previously-recorded file not present in the (empty)
new listing is deleted, dropped from `folder_files`, counted as removed,
and the emptied directory tree is pruned. -/
theorem folder_removal_and_pruning_witness :
    ((applyFolderSync (fun b => toString b) "2024-01-01T00:00:00Z"
      { id := "n1", file_name := "f1.pdf", sha256 := none, last_checked_at := none,
        last_updated_at := none, status := "Synced", last_error := none,
        source_type := some "folder",
        folder_files := [⟨"/r/sub/b.txt", "sub/b.txt", "x", none, none, none⟩] }
      { files := [(["sources", "n1", "sub", "b.txt"], [7])],
        dirs := [["sources"], ["sources", "n1"], ["sources", "n1", "sub"]] }
      []).removed = 1) ∧
    fsRead (applyFolderSync (fun b => toString b) "2024-01-01T00:00:00Z"
      { id := "n1", file_name := "f1.pdf", sha256 := none, last_checked_at := none,
        last_updated_at := none, status := "Synced", last_error := none,
        source_type := some "folder",
        folder_files := [⟨"/r/sub/b.txt", "sub/b.txt", "x", none, none, none⟩] }
      { files := [(["sources", "n1", "sub", "b.txt"], [7])],
        dirs := [["sources"], ["sources", "n1"], ["sources", "n1", "sub"]] }
      []).fs ["sources", "n1", "sub", "b.txt"] = none := by
  constructor
  · have hth := (folder_removal_and_pruning (fun b => toString b) "2024-01-01T00:00:00Z"
      { id := "n1", file_name := "f1.pdf", sha256 := none, last_checked_at := none,
        last_updated_at := none, status := "Synced", last_error := none,
        source_type := some "folder",
        folder_files := [⟨"/r/sub/b.txt", "sub/b.txt", "x", none, none, none⟩] }
      { files := [(["sources", "n1", "sub", "b.txt"], [7])],
        dirs := [["sources"], ["sources", "n1"], ["sources", "n1", "sub"]] }
      [] (by decide)
      (fun old _ _ g hg => absurd hg (List.not_mem_nil g))).2.1
    rw [hth]
    decide
  · exact ((folder_removal_and_pruning (fun b => toString b) "2024-01-01T00:00:00Z"
      { id := "n1", file_name := "f1.pdf", sha256 := none, last_checked_at := none,
        last_updated_at := none, status := "Synced", last_error := none,
        source_type := some "folder",
        folder_files := [⟨"/r/sub/b.txt", "sub/b.txt", "x", none, none, none⟩] }
      { files := [(["sources", "n1", "sub", "b.txt"], [7])],
        dirs := [["sources"], ["sources", "n1"], ["sources", "n1", "sub"]] }
      [] (by decide)
      (fun old _ _ g hg => absurd hg (List.not_mem_nil g))).1
      ⟨"/r/sub/b.txt", "sub/b.txt", "x", none, none, none⟩
      (List.mem_singleton.2 rfl) (by decide)).1

/-! ### Claim C7 -/

/-- C7 counterexample: with `skipLargeFiles` set but `maxFileSizeBytes = 0`,
an entry of reported size 1 satisfies "sizeBytes > maxFileSizeBytes with
skipLargeFiles set", yet the code still downloads it (the guard requires
`max_file_size_bytes > 0`), so the claim's skip condition as stated is
false. -/
theorem skip_policy_counterexample :
    (folderEntryResult
      { skip_video_files := false, skip_large_files := true, max_file_size_bytes := 0 }
      "u" none (Except.ok [7])
      (YandexEntry.mk "file" (some "/r/big.bin") (some "big.bin") none (some 1) none [])).was_skipped
        = false ∧
    (folderEntryResult
      { skip_video_files := false, skip_large_files := true, max_file_size_bytes := 0 }
      "u" none (Except.ok [7])
      (YandexEntry.mk "file" (some "/r/big.bin") (some "big.bin") none (some 1) none [])).temp
        = some [7] ∧
    (YandexEntry.mk "file" (some "/r/big.bin") (some "big.bin") none (some 1) none
      ([] : List YandexEntry)).size = some 1 ∧
    ((1 : Int) > 0) ∧
    ({ skip_video_files := false, skip_large_files := true, max_file_size_bytes := 0 }
      : DownloadOptions).skip_large_files = true := by
  refine ⟨by decide, by decide, rfl, by decide, rfl⟩

/-- C7 (amended): a video entry with `skipVideoFiles` set, or an entry with
reported `sizeBytes > maxFileSizeBytes` when `skipLargeFiles` is set AND
`maxFileSizeBytes > 0`, is marked skipped with no staged file and is never
fetched (the result does not depend on the fetch outcome); inside
`_apply_folder_sync`, an entry with no staged temp file leaves any existing
destination file byte-for-byte untouched and is still listed in the new
`folder_files`, with its hash taken from the existing destination, else
carried forward from the previous record, else empty. -/
theorem skipped_failed_entries (h : Content → String) (now : String)
    (note : NoteItem) (fs : FS) (dfiles : List DownloadedFolderFile)
    (opts : DownloadOptions) (fresh : String) (fp : Option String)
    (fetch fetch' : Except String Content) (entry : YandexEntry)
    (H2 : (dfiles.map (fun f => sourceFilePath note f.local_relative_path)).Nodup)
    (Hsep : ∀ old ∈ note.folder_files,
      old.local_relative_path ∉ dfiles.map (fun f => f.local_relative_path) →
      ∀ g ∈ dfiles, sourceFilePath note old.local_relative_path ≠
        sourceFilePath note g.local_relative_path) :
    (opts.skip_video_files = true → isVideoEntry entry = true →
      folderEntryResult opts fresh fp fetch entry = folderEntryResult opts fresh fp fetch' entry ∧
      (folderEntryResult opts fresh fp fetch entry).was_skipped = true ∧
      (folderEntryResult opts fresh fp fetch entry).temp = none) ∧
    (opts.skip_large_files = true → opts.max_file_size_bytes > 0 →
      ∀ n : Int, entry.size = some n → n > opts.max_file_size_bytes →
      folderEntryResult opts fresh fp fetch entry = folderEntryResult opts fresh fp fetch' entry ∧
      (folderEntryResult opts fresh fp fetch entry).was_skipped = true ∧
      (folderEntryResult opts fresh fp fetch entry).temp = none) ∧
    (∀ f ∈ dfiles, f.temp = none →
      fsRead (applyFolderSync h now note fs dfiles).fs
          (sourceFilePath note f.local_relative_path) =
        fsRead fs (sourceFilePath note f.local_relative_path) ∧
      ∃ item ∈ (applyFolderSync h now note fs dfiles).note.folder_files,
        item.local_relative_path = f.local_relative_path ∧
        item.sha256 = (match fsRead fs (sourceFilePath note f.local_relative_path) with
          | some b => h b
          | none =>
            match dictGet note.folder_files f.local_relative_path with
            | some it => it.sha256
            | none => "")) := by
  refine ⟨?_, ?_, ?_⟩
  · intro hv hiv
    have hcond : opts.skip_video_files = true ∧ isVideoEntry entry = true := ⟨hv, hiv⟩
    unfold folderEntryResult
    rw [if_pos hcond, if_pos hcond]
    exact ⟨rfl, rfl, rfl⟩
  · intro hl hmax n hsz hgt
    by_cases hcond : opts.skip_video_files = true ∧ isVideoEntry entry = true
    · unfold folderEntryResult
      rw [if_pos hcond, if_pos hcond]
      exact ⟨rfl, rfl, rfl⟩
    · have hcond2 : opts.skip_large_files = true ∧ opts.max_file_size_bytes > 0 ∧
          (match entry.size with
           | some n => decide (n > opts.max_file_size_bytes)
           | none => false) = true := by
        refine ⟨hl, hmax, ?_⟩
        rw [hsz]
        simp [hgt]
      unfold folderEntryResult
      rw [if_neg hcond, if_neg hcond, if_pos hcond2, if_pos hcond2]
      exact ⟨rfl, rfl, rfl⟩
  · intro f hf hft
    have hframe : fsRead (applyFolderSync h now note fs dfiles).fs
        (sourceFilePath note f.local_relative_path) =
        fsRead fs (sourceFilePath note f.local_relative_path) := by
      rw [applyFolderSync_dest_no_temp h now note fs dfiles H2 Hsep f hf hft,
        fsRead_fsUnlink_of_ne _ (sourceFilePath_ne_singleFilePath note note _),
        fsRead_mkdirParents]
    refine ⟨hframe, ?_⟩
    refine ⟨mkItem f (entrySha h note note.folder_files
      (fsUnlink (mkdirParents fs (sourceDir note)) (singleFilePath note)) f), ?_, rfl, ?_⟩
    · rw [applyFolderSync_folder_files_def]
      rw [(sortItems_perm _).mem_iff]
      rw [folderLoop_items_char h note note.folder_files dfiles _ H2]
      exact List.mem_map_of_mem _ hf
    · have hfs2 : fsRead (fsUnlink (mkdirParents fs (sourceDir note)) (singleFilePath note))
          (sourceFilePath note f.local_relative_path) =
          fsRead fs (sourceFilePath note f.local_relative_path) := by
        rw [fsRead_fsUnlink_of_ne _ (sourceFilePath_ne_singleFilePath note note _),
          fsRead_mkdirParents]
      unfold entrySha
      rw [hft, hfs2]
      rfl

/-- Witness for C7 (amended): a large entry with a positive threshold is
skipped whatever the fetch outcome would have been, and a skipped entry
over an existing destination leaves it untouched and listed with its
on-disk hash. -/
theorem skipped_failed_entries_witness :
    (folderEntryResult
        { skip_video_files := false, skip_large_files := true, max_file_size_bytes := 5 }
        "u" none (Except.ok [7])
        (YandexEntry.mk "file" (some "/r/big.bin") (some "big.bin") none (some 9) none []) =
      folderEntryResult
        { skip_video_files := false, skip_large_files := true, max_file_size_bytes := 5 }
        "u" none (Except.error "boom")
        (YandexEntry.mk "file" (some "/r/big.bin") (some "big.bin") none (some 9) none [])) ∧
    (folderEntryResult
        { skip_video_files := false, skip_large_files := true, max_file_size_bytes := 5 }
        "u" none (Except.ok [7])
        (YandexEntry.mk "file" (some "/r/big.bin") (some "big.bin") none (some 9) none
          [])).was_skipped = true ∧
    fsRead (applyFolderSync (fun b => toString b) "2024-01-01T00:00:00Z"
      { id := "n1", file_name := "f1.pdf", sha256 := none, last_checked_at := none,
        last_updated_at := none, status := "Synced", last_error := none,
        source_type := some "folder", folder_files := [] }
      { files := [(["sources", "n1", "a.txt"], [7])],
        dirs := [["sources"], ["sources", "n1"]] }
      [{ remote_path := "/r/a.txt", local_relative_path := "a.txt", temp := none,
         modified_at := none, size_bytes := none, mime_type := none,
         was_skipped := true, download_error := none }]).fs ["sources", "n1", "a.txt"] =
      some [7] := by
  have hm := skipped_failed_entries (fun b => toString b) "2024-01-01T00:00:00Z"
    { id := "n1", file_name := "f1.pdf", sha256 := none, last_checked_at := none,
      last_updated_at := none, status := "Synced", last_error := none,
      source_type := some "folder", folder_files := [] }
    { files := [(["sources", "n1", "a.txt"], [7])],
      dirs := [["sources"], ["sources", "n1"]] }
    [{ remote_path := "/r/a.txt", local_relative_path := "a.txt", temp := none,
       modified_at := none, size_bytes := none, mime_type := none,
       was_skipped := true, download_error := none }]
    { skip_video_files := false, skip_large_files := true, max_file_size_bytes := 5 }
    "u" none (Except.ok [7]) (Except.error "boom")
    (YandexEntry.mk "file" (some "/r/big.bin") (some "big.bin") none (some 9) none [])
    (by decide)
    (fun old hold => absurd hold (List.not_mem_nil old))
  rcases hm with ⟨-, hlarge, hframe⟩
  rcases hlarge rfl (by decide) 9 rfl (by decide) with ⟨heq, hsk, -⟩
  refine ⟨heq, hsk, ?_⟩
  exact ((hframe _ (List.mem_singleton.2 rfl) rfl).1).trans (by decide)

/-! ### Claim C8 -/

theorem collectYandexFiles_of_depth_gt (fetch : Option String → Option YandexEntry)
    (path : Option String) (d : Nat) (hd : d > 8) :
    collectYandexFiles fetch path d = [] := by
  rw [collectYandexFiles]
  rw [dif_pos hd]

theorem collectYandexFiles_eq (fetch : Option String → Option YandexEntry)
    (path : Option String) (d : Nat) (hd : ¬ d > 8) :
    collectYandexFiles fetch path d =
      match fetch path with
      | none => []
      | some r =>
        if r.etype = "file" then [r]
        else if r.etype = "dir" then
          r.items.flatMap (fun item =>
            if item.etype = "file" then [item]
            else if item.etype = "dir" ∧ pyTruthy item.path then
              collectYandexFiles fetch item.path (d + 1)
            else [])
        else [] := by
  rw [collectYandexFiles]
  rw [dif_neg hd]

theorem yandexReach_le (fetch : Option String → Option YandexEntry)
    {path : Option String} {d : Nat} {e : YandexEntry}
    (hr : YandexReach fetch path d e) : d ≤ 8 := by
  cases hr with
  | top_file _ _ _ hle _ _ => exact hle
  | item_file _ _ _ _ hle _ _ _ _ => exact hle
  | item_dir _ _ _ _ _ hle _ _ _ _ _ _ => exact hle

theorem yandexReach_file (fetch : Option String → Option YandexEntry) :
    ∀ {path : Option String} {d : Nat} {e : YandexEntry},
      YandexReach fetch path d e → e.etype = "file" := by
  intro path d e hr
  induction hr with
  | top_file _ _ _ _ _ hf => exact hf
  | item_file _ _ _ _ _ _ _ _ hf => exact hf
  | item_dir _ _ _ _ _ _ _ _ _ _ _ _ ih => exact ih

theorem collect_mem_iff_aux (fetch : Option String → Option YandexEntry) :
    ∀ (k : Nat) (path : Option String) (d : Nat), 9 - d ≤ k →
      ∀ e, e ∈ collectYandexFiles fetch path d ↔ YandexReach fetch path d e := by
  intro k
  induction k with
  | zero =>
    intro path d hk e
    have hd : d > 8 := by omega
    rw [collectYandexFiles_of_depth_gt fetch path d hd]
    constructor
    · intro hm; exact absurd hm (List.not_mem_nil e)
    · intro hr; exact absurd (yandexReach_le fetch hr) (by omega)
  | succ k ih =>
    intro path d hk e
    by_cases hd : d > 8
    · rw [collectYandexFiles_of_depth_gt fetch path d hd]
      constructor
      · intro hm; exact absurd hm (List.not_mem_nil e)
      · intro hr; exact absurd (yandexReach_le fetch hr) (by omega)
    · have hd8 : d ≤ 8 := by omega
      cases hfetch : fetch path with
      | none =>
        have hcol : collectYandexFiles fetch path d = [] := by
          rw [collectYandexFiles_eq fetch path d hd, hfetch]
        rw [hcol]
        constructor
        · intro hm; exact absurd hm (List.not_mem_nil e)
        · intro hr
          cases hr with
          | top_file _ _ r _ hf _ => rw [hfetch] at hf; exact Option.noConfusion hf
          | item_file _ _ r _ _ hf _ _ _ => rw [hfetch] at hf; exact Option.noConfusion hf
          | item_dir _ _ r _ _ _ hf _ _ _ _ _ => rw [hfetch] at hf; exact Option.noConfusion hf
      | some r =>
        have hcol : collectYandexFiles fetch path d =
            (if r.etype = "file" then [r]
             else if r.etype = "dir" then
               r.items.flatMap (fun item =>
                 if item.etype = "file" then [item]
                 else if item.etype = "dir" ∧ pyTruthy item.path then
                   collectYandexFiles fetch item.path (d + 1)
                 else [])
             else []) := by
          rw [collectYandexFiles_eq fetch path d hd, hfetch]
        rw [hcol]
        by_cases hrf : r.etype = "file"
        · rw [if_pos hrf]
          constructor
          · intro hm
            rw [List.mem_singleton] at hm
            subst hm
            exact YandexReach.top_file path d e hd8 hfetch hrf
          · intro hr
            rw [List.mem_singleton]
            cases hr with
            | top_file _ _ _ hle hf hfile =>
              rw [hfetch] at hf
              exact (Option.some.inj hf).symm
            | item_file _ _ r0 _ hle hf hdir hitem hif =>
              rw [hfetch] at hf
              have hrr := Option.some.inj hf
              subst hrr
              rw [hrf] at hdir
              exact absurd hdir (by decide)
            | item_dir _ _ r0 item0 _ hle hf hdir hitem hidir htr hrec =>
              rw [hfetch] at hf
              have hrr := Option.some.inj hf
              subst hrr
              rw [hrf] at hdir
              exact absurd hdir (by decide)
        · rw [if_neg hrf]
          by_cases hrd : r.etype = "dir"
          · rw [if_pos hrd]
            rw [List.mem_flatMap]
            constructor
            · rintro ⟨item, hitem, hmem⟩
              by_cases hif : item.etype = "file"
              · rw [if_pos hif, List.mem_singleton] at hmem
                subst hmem
                exact YandexReach.item_file path d r e hd8 hfetch hrd hitem hif
              · rw [if_neg hif] at hmem
                by_cases hid : item.etype = "dir" ∧ pyTruthy item.path = true
                · rw [if_pos hid] at hmem
                  have hrec := (ih item.path (d + 1) (by omega) e).1 hmem
                  exact YandexReach.item_dir path d r item e hd8 hfetch hrd hitem
                    hid.1 hid.2 hrec
                · rw [if_neg hid] at hmem
                  exact absurd hmem (List.not_mem_nil e)
            · intro hr
              cases hr with
              | top_file _ _ _ hle hf hfile =>
                rw [hfetch] at hf
                have hrr := Option.some.inj hf
                subst hrr
                exact absurd hfile hrf
              | item_file _ _ r0 _ hle hf hdir hitem hif =>
                rw [hfetch] at hf
                have hrr := Option.some.inj hf
                subst hrr
                refine ⟨e, hitem, ?_⟩
                rw [if_pos hif, List.mem_singleton]
              | item_dir _ _ r0 item0 _ hle hf hdir hitem hidir htr hrec =>
                rw [hfetch] at hf
                have hrr := Option.some.inj hf
                subst hrr
                refine ⟨item0, hitem, ?_⟩
                have hif : ¬ item0.etype = "file" := by
                  rw [hidir]; decide
                rw [if_neg hif, if_pos ⟨hidir, htr⟩]
                exact (ih item0.path (d + 1) (by omega) e).2 hrec
          · rw [if_neg hrd]
            constructor
            · intro hm; exact absurd hm (List.not_mem_nil e)
            · intro hr
              cases hr with
              | top_file _ _ _ hle hf hfile =>
                rw [hfetch] at hf
                have hrr := Option.some.inj hf
                subst hrr
                exact absurd hfile hrf
              | item_file _ _ r0 _ hle hf hdir hitem hif =>
                rw [hfetch] at hf
                have hrr := Option.some.inj hf
                subst hrr
                exact absurd hdir hrd
              | item_dir _ _ r0 item0 _ hle hf hdir hitem hidir htr hrec =>
                rw [hfetch] at hf
                have hrr := Option.some.inj hf
                subst hrr
                exact absurd hdir hrd

/-- C8: the recursive folder listing is total (defined for every fetch
oracle, including cyclic ones); it returns `[]` beyond depth 8, and it
collects exactly the `type == "file"` entries reachable within the depth
bound — every collected entry being a file entry. -/
theorem collect_yandex_files_bounded (fetch : Option String → Option YandexEntry)
    (path : Option String) (d : Nat) :
    (d > 8 → collectYandexFiles fetch path d = []) ∧
    (∀ e, e ∈ collectYandexFiles fetch path d ↔ YandexReach fetch path d e) ∧
    (∀ e ∈ collectYandexFiles fetch path d, e.etype = "file") := by
  refine ⟨collectYandexFiles_of_depth_gt fetch path d, ?_, ?_⟩
  · exact collect_mem_iff_aux fetch (9 - d) path d (Nat.le_refl _)
  · intro e hm
    exact yandexReach_file fetch
      ((collect_mem_iff_aux fetch (9 - d) path d (Nat.le_refl _) e).1 hm)

/-- Witness for C8 on a two-level concrete listing with a cyclic
subdirectory link: the traversal stops at the bound and collects the file
entries. -/
theorem collect_yandex_files_bounded_witness :
    collectYandexFiles
      (fun p => if p = none then
          some (YandexEntry.mk "dir" (some "/") none none none none
            [YandexEntry.mk "file" (some "/a.txt") (some "a.txt") none none none [],
             YandexEntry.mk "dir" (some "/sub") none none none none []])
        else
          some (YandexEntry.mk "dir" (some "/sub") none none none none
            [YandexEntry.mk "dir" (some "/sub") none none none none []]))
      none 9 = [] := by
  have := (collect_yandex_files_bounded
    (fun p => if p = none then
        some (YandexEntry.mk "dir" (some "/") none none none none
          [YandexEntry.mk "file" (some "/a.txt") (some "a.txt") none none none [],
           YandexEntry.mk "dir" (some "/sub") none none none none []])
      else
        some (YandexEntry.mk "dir" (some "/sub") none none none none
          [YandexEntry.mk "dir" (some "/sub") none none none none []]))
    none 9).1 (by omega)
  exact this

/-! ### Claim C9 -/

theorem length_dropWhile_le {α : Type} (q : α → Bool) (l : List α) :
    (l.dropWhile q).length ≤ l.length := by
  induction l with
  | nil => simp
  | cons c t ih =>
    rw [List.dropWhile_cons]
    by_cases hq : q c = true
    · rw [if_pos hq]
      simp only [List.length_cons]
      omega
    · rw [if_neg hq]

theorem dropWhile_eq_self_of_length {α : Type} (q : α → Bool) :
    ∀ (l : List α), (l.dropWhile q).length = l.length → l.dropWhile q = l := by
  intro l
  cases l with
  | nil => intro _; rfl
  | cons c t =>
    intro hlen
    rw [List.dropWhile_cons] at hlen ⊢
    by_cases hq : q c = true
    · rw [if_pos hq] at hlen
      have := length_dropWhile_le q t
      simp at hlen
      omega
    · rw [if_neg hq]

theorem dropWhile_cons_fix {q : Char → Bool} {d : Char} {u : List Char}
    (hfix : (d :: u).dropWhile q = d :: u) : q d = false := by
  by_cases hq : q d = true
  · rw [List.dropWhile_cons, if_pos hq] at hfix
    have h1 := congrArg List.length hfix
    have h2 := length_dropWhile_le q u
    simp at h1
    omega
  · rw [Bool.not_eq_true] at hq
    exact hq

theorem pyStrip_parts {l : List Char} (hs : pyStrip l = l) :
    l.dropWhile Char.isWhitespace = l ∧
    l.reverse.dropWhile Char.isWhitespace = l.reverse := by
  unfold pyStrip at hs
  have hlen := congrArg List.length hs
  have l1 : ((l.dropWhile Char.isWhitespace).reverse.dropWhile Char.isWhitespace).length ≤
      (l.dropWhile Char.isWhitespace).length := by
    have := length_dropWhile_le Char.isWhitespace (l.dropWhile Char.isWhitespace).reverse
    simpa using this
  have l2 : (l.dropWhile Char.isWhitespace).length ≤ l.length :=
    length_dropWhile_le Char.isWhitespace l
  simp only [List.length_reverse] at hlen
  have hAeq : (l.dropWhile Char.isWhitespace).length = l.length := by omega
  have hA : l.dropWhile Char.isWhitespace = l :=
    dropWhile_eq_self_of_length Char.isWhitespace l hAeq
  constructor
  · exact hA
  · rw [hA] at hs hlen
    apply dropWhile_eq_self_of_length
    rw [List.length_reverse]
    omega

theorem pyStrip_pseudo (key p : List Char) (hp_strip : pyStrip p = p) :
    pyStrip (pseudoPrefixChars ++ key ++ ':' :: '/' :: p) =
      pseudoPrefixChars ++ key ++ ':' :: '/' :: p := by
  have hPP : pseudoPrefixChars = 'y' :: "a-disk-public://".toList := by decide
  unfold pyStrip
  have hfront : (pseudoPrefixChars ++ key ++ ':' :: '/' :: p).dropWhile Char.isWhitespace =
      pseudoPrefixChars ++ key ++ ':' :: '/' :: p := by
    rw [hPP]
    rw [List.cons_append, List.cons_append, List.dropWhile_cons]
    rw [if_neg (by decide)]
  rw [hfront]
  have hback : (pseudoPrefixChars ++ key ++ ':' :: '/' :: p).reverse.dropWhile Char.isWhitespace =
      (pseudoPrefixChars ++ key ++ ':' :: '/' :: p).reverse := by
    have hrev : (pseudoPrefixChars ++ key ++ ':' :: '/' :: p).reverse =
        p.reverse ++ '/' :: ':' :: (pseudoPrefixChars ++ key).reverse := by
      simp
    rw [hrev]
    rcases hp : p.reverse with - | ⟨d, u⟩
    · rw [List.nil_append]
      rw [List.dropWhile_cons, if_neg (by decide)]
    · have hfix := (pyStrip_parts hp_strip).2
      rw [hp] at hfix
      have hd : Char.isWhitespace d = false := dropWhile_cons_fix hfix
      rw [List.cons_append, List.dropWhile_cons, if_neg (by simp [hd])]
  rw [hback, List.reverse_reverse]

theorem splitColonSlash_append (p : List Char) :
    ∀ (key : List Char), splitColonSlash key = none →
      splitColonSlash (key ++ ':' :: '/' :: p) = some (key, p) := by
  intro key
  induction key with
  | nil =>
    intro _
    rw [List.nil_append]
    unfold splitColonSlash
    rw [if_pos (by simp)]
    rfl
  | cons c t ih =>
    intro hk
    unfold splitColonSlash at hk
    by_cases hcp : c = ':' ∧ t.head? = some '/'
    · rw [if_pos hcp] at hk
      exact Option.noConfusion hk
    · rw [if_neg hcp] at hk
      have ht : splitColonSlash t = none := by
        rcases hsp : splitColonSlash t with - | pr
        · rfl
        · rw [hsp] at hk
          exact Option.noConfusion hk
      rw [List.cons_append]
      unfold splitColonSlash
      have hcp2 : ¬ (c = ':' ∧ (t ++ ':' :: '/' :: p).head? = some '/') := by
        rintro ⟨hc, hh⟩
        rcases t with - | ⟨d, t2⟩
        · rw [List.nil_append] at hh
          simp at hh
        · rw [List.cons_append] at hh
          simp at hh
          exact hcp ⟨hc, by simp [hh]⟩
      rw [if_neg hcp2, ih ht]
      rfl

theorem map_toLower_pseudo (l : List Char) :
    (pseudoPrefixChars ++ l).map Char.toLower =
      pseudoPrefixChars ++ l.map Char.toLower := by
  rw [List.map_append]
  congr 1

/-- C9: the pseudo-URL parser accepts every well-formed
`ya-disk-public://KEY:/path` string, returning
`public_key = "ya-disk-public://" ++ KEY` (spaces replaced by `+`) and
`path = "/path"` (or no path when the path part is empty); and the
resolver consults the pseudo-URL grammar before any host classification.
The hypotheses spell out well-formedness: the key is nonempty, carries no
surrounding whitespace and no `":/"`, and the path part carries no
surrounding whitespace or slashes. -/
theorem parse_pseudo_url_ok (key p : List Char)
    (hk_ne : key ≠ [])
    (hk_strip : pyStrip key = key)
    (hk_nocs : splitColonSlash key = none)
    (hp_strip : pyStrip p = p)
    (hp_slash : pyStripChar '/' p = p) :
    parseYandexPublicPseudoUrl (String.mk (pseudoPrefixChars ++ key ++ ':' :: '/' :: p)) =
      some { public_key := String.mk (pseudoPrefixChars ++ plusifySpaces key)
             path := if p = [] then none else some (String.mk ('/' :: p)) } ∧
    (∀ (unquoteFn : String → String) (parseUrlFn : String → Option ParsedUrl)
      (u : ParsedUrl) (d : Nat), d ≤ 5 →
      (parseYandexPublicPseudoUrl u.raw).isSome = true →
      resolveYandexPublicResource unquoteFn parseUrlFn u d =
        parseYandexPublicPseudoUrl u.raw) := by
  constructor
  · unfold parseYandexPublicPseudoUrl
    have htl : (String.mk (pseudoPrefixChars ++ key ++ ':' :: '/' :: p)).toList =
        pseudoPrefixChars ++ key ++ ':' :: '/' :: p := rfl
    rw [htl, pyStrip_pseudo key p hp_strip]
    have hassoc : pseudoPrefixChars ++ key ++ ':' :: '/' :: p =
        pseudoPrefixChars ++ (key ++ ':' :: '/' :: p) := by
      rw [List.append_assoc]
    rw [hassoc]
    have hpre : pseudoPrefixChars.isPrefixOf
        ((pseudoPrefixChars ++ (key ++ ':' :: '/' :: p)).map Char.toLower) = true := by
      rw [map_toLower_pseudo, List.isPrefixOf_iff_prefix]
      exact List.prefix_append _ _
    rw [if_pos hpre, List.drop_left]
    rw [if_neg (by simp : ¬ (key ++ ':' :: '/' :: p = []))]
    rw [splitColonSlash_append p key hk_nocs]
    simp only [hp_slash, hk_strip]
    have hkp : ¬ plusifySpaces key = [] := by
      unfold plusifySpaces
      simp [hk_ne]
    rw [if_neg hkp]
  · intro unquoteFn parseUrlFn u d hd hsome
    rw [resolveYandexPublicResource]
    rw [dif_neg (by omega : ¬ d > 5)]
    rcases hps : parseYandexPublicPseudoUrl u.raw with - | r
    · rw [hps] at hsome
      exact absurd hsome (by simp)
    · rfl

/-- Witness for C9 at the spec's example with a Google-Drive host, showing
the pseudo-URL grammar wins over host classification. -/
theorem parse_pseudo_url_ok_witness :
    parseYandexPublicPseudoUrl
      (String.mk (pseudoPrefixChars ++ "KEY".toList ++ ':' :: '/' :: "a/b/c.pdf".toList)) =
      some { public_key := String.mk (pseudoPrefixChars ++ plusifySpaces "KEY".toList)
             path := if ("a/b/c.pdf".toList : List Char) = [] then none
                     else some (String.mk ('/' :: "a/b/c.pdf".toList)) } ∧
    parseYandexPublicPseudoUrl "ya-disk-public://KEY:/a/b/c.pdf" =
      some { public_key := "ya-disk-public://KEY", path := some "/a/b/c.pdf" } ∧
    resolveYandexPublicResource id (fun _ => none)
      { raw := "ya-disk-public://KEY:/a/b/c.pdf", host := "drive.google.com",
        urlParam := none } 0 =
      parseYandexPublicPseudoUrl "ya-disk-public://KEY:/a/b/c.pdf" :=
  ⟨(parse_pseudo_url_ok "KEY".toList "a/b/c.pdf".toList (by decide) (by decide)
      (by decide) (by decide) (by decide)).1,
   by decide,
   (parse_pseudo_url_ok "KEY".toList "a/b/c.pdf".toList (by decide) (by decide)
      (by decide) (by decide) (by decide)).2 id (fun _ => none)
     { raw := "ya-disk-public://KEY:/a/b/c.pdf", host := "drive.google.com",
       urlParam := none } 0 (by omega) (by decide)⟩

end NotesSync
